import Mathlib

/-!
Verification development for the OversightBot ticket lifecycle engine
(`src/bot.py`).  The Python code keeps its state in a SQLite database with
three tables: `requests` (the tickets), `oversighters` (the reviewer set) and
`ping_subscribers` (the notification opt-in set).  We embed that state as a
Lean structure and translate each database-layer and orchestrator-layer
function into a pure Lean function on that state.  Timestamps are plain
integers (seconds); identities are integers (Discord user ids).

Conventions of the embedding:
* A SQLite `UPDATE ... WHERE p` is a `List.map` that rewrites every row
  satisfying `p`, together with a row count `List.countP p`.
* `INSERT` with `AUTOINCREMENT` appends a row whose id is one more than the
  largest id ever used (rows are never deleted, so that is `max + 1` of the
  current rows).  Consequently the `requests` list is kept in ascending-id
  order, so SQL's `ORDER BY id` coincides with the stored order; the
  well-formedness predicate `DB.SortedById` captures this.
* Python truthiness on a nullable integer column (`if not req["claimed_by"]`)
  is modelled by `pyTruthy`, which is false for `none` and for `some 0`.
* `await` points are suspension points of the single-threaded cooperative
  scheduler: other tasks may mutate the database there.  Where a claim needs
  it, such interference is modelled by an explicit optional event injected at
  the corresponding point.
-/

namespace OversightBot

/-- External ticket ids are the internal rowid plus this offset
(`ID_OFFSET = 1000` in `bot.py`). -/
def ID_OFFSET : Int := 1000

/-- `row_to_ext_id`: convert internal rowid to external ticket id. -/
def row_to_ext_id (rowid : Nat) : Int := (rowid : Int) + ID_OFFSET

/-- `ext_id_to_row`: convert external ticket id to internal rowid; the Python
function raises `ValueError` when `ext_id - ID_OFFSET <= 0`, modelled as
`none`. -/
def ext_id_to_row (ext_id : Int) : Option Nat :=
  let internal := ext_id - ID_OFFSET
  if internal ≤ 0 then none else some internal.toNat

/-- One row of the `requests` table (see `init_db` in `bot.py`). -/
structure Ticket where
  id : Nat
  author_id : Int
  text : String
  created_at : Int
  claimed_by : Option Int
  claimed_at : Option Int
  reminded_at : Option Int
  message_id : Option Int
deriving DecidableEq, Repr

/-- The persistent state: the three tables of the SQLite database. -/
structure DB where
  requests : List Ticket
  oversighters : List Int
  ping_subscribers : List Int
deriving DecidableEq, Repr

/-- Well-formedness: rowids are strictly increasing in stored order.  This
holds by construction (`AUTOINCREMENT` assigns increasing ids and rows are
never deleted) and makes SQL's `ORDER BY id` the identity. -/
def DB.SortedById (db : DB) : Prop :=
  db.requests.Pairwise (fun a b => a.id < b.id)

/-- Well-formedness: rowids are pairwise distinct (`id` is the primary key). -/
def DB.NodupIds (db : DB) : Prop :=
  (db.requests.map Ticket.id).Nodup

/-- Python truthiness of a nullable integer column: `None` and `0` are falsy. -/
def pyTruthy : Option Int → Bool
  | none => false
  | some v => v != 0

/-! ### Identity & authorization store, notification preference store -/

/-- `is_oversighter`: membership query on the `oversighters` table. -/
def is_oversighter (db : DB) (user_id : Int) : Bool :=
  db.oversighters.contains user_id

/-- `add_oversighter`: `INSERT OR IGNORE INTO oversighters`. -/
def add_oversighter (db : DB) (user_id : Int) : DB :=
  if db.oversighters.contains user_id then db
  else { db with oversighters := db.oversighters ++ [user_id] }

/-- `remove_oversighter`: `DELETE FROM oversighters WHERE user_id = ?`. -/
def remove_oversighter (db : DB) (user_id : Int) : DB :=
  { db with oversighters := db.oversighters.filter (fun x => x != user_id) }

/-- `add_ping_sub`: `INSERT OR IGNORE INTO ping_subscribers`. -/
def add_ping_sub (db : DB) (user_id : Int) : DB :=
  if db.ping_subscribers.contains user_id then db
  else { db with ping_subscribers := db.ping_subscribers ++ [user_id] }

/-- `remove_ping_sub`: `DELETE FROM ping_subscribers WHERE user_id = ?`. -/
def remove_ping_sub (db : DB) (user_id : Int) : DB :=
  { db with ping_subscribers := db.ping_subscribers.filter (fun x => x != user_id) }

/-- `get_ping_subs`: list of opted-in user ids. -/
def get_ping_subs (db : DB) : List Int :=
  db.ping_subscribers

/-! ### Clock model

`bot.py` reads the clock in two different ways.  We model a host whose true
UTC time is `utcEpoch` seconds since the epoch and whose local timezone is a
fixed `tzOffset` seconds east of UTC.

* `datetime.now(timezone.utc).timestamp()` (used by `create_request` and
  `claim_request`) produces the true UTC epoch second, independent of the
  host timezone.
* `datetime.utcnow().timestamp()` (used by `reminder_loop`) takes the naive
  UTC wall-clock reading and converts it assuming it is *local* time, so it
  produces `utcEpoch - tzOffset`.
-/

/-- Value of `int(datetime.now(timezone.utc).timestamp())`. -/
def now_utc_timestamp (utcEpoch : Int) (_tzOffset : Int) : Int := utcEpoch

/-- Value of `int(datetime.utcnow().timestamp())`: the naive UTC wall clock
re-interpreted as local time, i.e. the true epoch second minus the host's
UTC offset. -/
def utcnow_timestamp (utcEpoch tzOffset : Int) : Int := utcEpoch - tzOffset

/-- The cutoff computed by each firing of `reminder_loop` (line 548):
`int(datetime.utcnow().timestamp()) - REMINDER_MINUTES * 60`. -/
def reminder_cutoff (utcEpoch tzOffset reminderMinutes : Int) : Int :=
  utcnow_timestamp utcEpoch tzOffset - reminderMinutes * 60

/-! ### Configuration -/

/-- Static configuration consumed by the engine: `COOLDOWN_SECONDS`,
`REMINDER_MINUTES` and the `BOT_ADMINS` id set from the environment. -/
structure Config where
  cooldown_seconds : Int
  reminder_minutes : Int
  bot_admins : List Int
deriving DecidableEq, Repr

/-! ### Ticket store -/

/-- Next rowid assigned by SQLite `AUTOINCREMENT`: one more than the largest
id ever used (rows are never deleted). -/
def next_id (db : DB) : Nat :=
  db.requests.foldl (fun m t => max m t.id) 0 + 1

/-- `fetch_request`: `SELECT * FROM requests WHERE id = ?`. -/
def fetch_request (db : DB) (row_id : Nat) : Option Ticket :=
  db.requests.find? (fun t => t.id == row_id)

/-- The `claimed_by` column of the row with the given id, if present. -/
def claimed_by_of (db : DB) (row_id : Nat) : Option Int :=
  (fetch_request db row_id).bind Ticket.claimed_by

/-- The `reminded_at` column of the row with the given id, if present. -/
def reminded_of (db : DB) (row_id : Nat) : Option Int :=
  (fetch_request db row_id).bind Ticket.reminded_at

/-- Row predicate of the conditional update in `claim_request`:
`WHERE id = ? AND claimed_by IS NULL`. -/
def claim_hit (row_id : Nat) (t : Ticket) : Bool :=
  t.id == row_id && t.claimed_by.isNone

/-- `claim_request`: the atomic conditional update
`UPDATE requests SET claimed_by = ?, claimed_at = ? WHERE id = ? AND
claimed_by IS NULL`, returning `cur.rowcount == 1` together with the updated
state. -/
def claim_request (db : DB) (row_id : Nat) (claimer_id now : Int) : Bool × DB :=
  let rowcount := db.requests.countP (claim_hit row_id)
  let requests := db.requests.map (fun t =>
    if claim_hit row_id t then
      { t with claimed_by := some claimer_id, claimed_at := some now }
    else t)
  (rowcount == 1, { db with requests := requests })

/-- `list_pending`: `SELECT id FROM requests WHERE claimed_by IS NULL ORDER BY
id`, each rowid mapped to its external id.  Under `DB.SortedById` the stored
order is already ascending by id, so `ORDER BY id` is the identity. -/
def list_pending (db : DB) : List Int :=
  (db.requests.filter (fun t => t.claimed_by.isNone)).map
    (fun t => row_to_ext_id t.id)

/-- `recent_request_count`: `SELECT COUNT(*) FROM requests WHERE author_id = ?
AND created_at >= ?` with the window start `now - COOLDOWN_SECONDS`. -/
def recent_request_count (cfg : Config) (db : DB) (author_id : Int)
    (now : Int) : Nat :=
  let window_ts := now - cfg.cooldown_seconds
  db.requests.countP (fun t =>
    t.author_id == author_id && decide (window_ts ≤ t.created_at))

/-- The rate-limit rejection raised by `create_request`
(`RuntimeError` formatted with the configured cooldown window). -/
inductive SubmitError where
  | rateLimitExceeded (cooldown : Int)
deriving DecidableEq, Repr

/-- `create_request`: rate-limit exemption check (bot-admins and oversighters
skip the count entirely), then the recent-count check for everyone else, then
the insert.  `nowCount` is the clock reading taken inside
`recent_request_count`; `nowInsert` the one taken just before the `INSERT`
(two separate `datetime.now(timezone.utc)` calls in the Python).  On rejection
no row is inserted. -/
def create_request (cfg : Config) (db : DB) (author_id : Int) (text : String)
    (nowCount nowInsert : Int) : Except SubmitError (Int × DB) :=
  if !(cfg.bot_admins.contains author_id || is_oversighter db author_id) &&
      decide (2 ≤ recent_request_count cfg db author_id nowCount) then
    .error (.rateLimitExceeded cfg.cooldown_seconds)
  else
    let rid := next_id db
    let t : Ticket :=
      { id := rid, author_id := author_id, text := text,
        created_at := nowInsert, claimed_by := none, claimed_at := none,
        reminded_at := none, message_id := none }
    .ok (row_to_ext_id rid, { db with requests := db.requests ++ [t] })

/-! ### The `/claim` command (orchestrator layer)

`_claim_one` and the surrounding `claim` handler, lines 688–774.  The
user-visible followup messages are modelled by `Msg`; the author DM and the
announcement-message edit on the success path touch no engine state and are
not modelled.  Because every `await` is a suspension point, another task may
win the race on the same row between `_claim_one`'s initial `fetch_request`
and its `claim_request`; that interference is the explicit `race` argument
(the competing claimant's id and timestamp), `none` when no one interferes. -/

/-- Followup messages sent by the `/claim` handler. -/
inductive Msg where
  | unknownTicket
  | invalidId
  | alreadyClaimed (claimant : Option Int)
  | claimedOk (ext_id : Int)
  | noUnclaimed
  | claimingMultiple (count : Nat)
deriving DecidableEq, Repr

/-- `_claim_one` (lines 690–749): fetch, attempt the atomic claim if the
fetched row looks unclaimed, refetch on success, then report.  Failure
messages are sent only when `first` is true; the success message is sent
unconditionally.  `race` is an optional competing claim landing between the
initial fetch and the atomic update. -/
def claim_one (db : DB) (row_id : Nat) (user_id now : Int)
    (race : Option (Int × Int)) (first : Bool) : List Msg × DB :=
  match fetch_request db row_id with
  | none => (if first then [Msg.unknownTicket] else [], db)
  | some req0 =>
    let db1 := match race with
      | some r => (claim_request db row_id r.1 r.2).2
      | none => db
    let step : Bool × DB × Ticket :=
      if !pyTruthy req0.claimed_by then
        let r := claim_request db1 row_id user_id now
        if r.1 then (true, r.2, (fetch_request r.2 row_id).getD req0)
        else (false, r.2, req0)
      else (false, db1, req0)
    let success := step.1
    let db2 := step.2.1
    let req := step.2.2
    if pyTruthy req.claimed_by && !success then
      (if first then [Msg.alreadyClaimed req.claimed_by] else [], db2)
    else
      ([Msg.claimedOk (row_to_ext_id row_id)], db2)

/-- The single-ID path of `/claim` (lines 754–762): convert the external id
(`ValueError` becomes the invalid-id reply) and run `_claim_one` with
`first = True`. -/
def claim_cmd_single (db : DB) (user_id now : Int) (ext_id : Int)
    (race : Option (Int × Int)) : List Msg × DB :=
  match ext_id_to_row ext_id with
  | none => ([Msg.invalidId], db)
  | some row_id => claim_one db row_id user_id now race true

/-- A database mutation another cooperative task can perform while the bulk
claim is suspended at an `await`: a new submission (store-level insert) or a
competing claim on some row. -/
inductive Event where
  | create (author_id : Int) (text : String) (ts : Int)
  | rclaim (row_id : Nat) (user_id ts : Int)

/-- Apply an interference event to the state. -/
def applyEvent (db : DB) : Event → DB
  | .create a s ts =>
    let rid := next_id db
    { db with requests := db.requests ++
        [{ id := rid, author_id := a, text := s, created_at := ts,
           claimed_by := none, claimed_at := none, reminded_at := none,
           message_id := none }] }
  | .rclaim r u ts => (claim_request db r u ts).2

/-- Interference schedule for a bulk claim: `pre i` are the events other
tasks perform before the `i`-th attempt (1-based, as in
`enumerate(pending, start=1)`); `mid i` is an optional competing claim inside
the `i`-th `_claim_one` between its fetch and its atomic update. -/
structure Interference where
  pre : Nat → List Event
  mid : Nat → Option (Int × Int)

/-- The loop body of the bulk path: `for idx, ext_id in enumerate(pending,
start=1): await _claim_one(ext_id_to_row(ext_id), idx == 1)`.  A `ValueError`
from `ext_id_to_row` would abort the command uncaught (modelled as stopping
with no message); it is unreachable because `list_pending` only yields
external ids above `ID_OFFSET`. -/
def claim_bulk_go (user_id now : Int) (itf : Interference) :
    Nat → List Int → DB → List Msg × DB
  | _, [], db => ([], db)
  | idx, ext :: rest, db =>
    let db1 := (itf.pre idx).foldl applyEvent db
    match ext_id_to_row ext with
    | none => ([], db1)
    | some row_id =>
      let s := claim_one db1 row_id user_id now (itf.mid idx) (idx == 1)
      let s' := claim_bulk_go user_id now itf (idx + 1) rest s.2
      (s.1 ++ s'.1, s'.2)

/-- The bulk path of `/claim` (lines 764–774): snapshot `list_pending()`,
reply `no_unclaimed` if empty, otherwise announce the count and attempt each
snapshotted ticket sequentially. -/
def claim_bulk (db : DB) (user_id now : Int) (itf : Interference) :
    List Msg × DB :=
  let pending := list_pending db
  if pending.isEmpty then ([Msg.noUnclaimed], db)
  else
    let s := claim_bulk_go user_id now itf 1 pending db
    (Msg.claimingMultiple pending.length :: s.1, s.2)

/-! ### Reminder scheduler (`reminder_loop`, lines 545–599)

One pass: select the eligible rows, then for each row (1) `bot.fetch_user`
on the author — an HTTP failure here is *not* caught and propagates,
(2) `author.send` wrapped in `try/except HTTPException: pass`, (3)
`notify_restricted` — a send failure here is not caught either, (4) execute
the `reminded_at` update on the open connection.  A single `db.commit()`
follows the loop, so the updates only persist if the whole pass finishes;
an exception closes the connection uncommitted and SQLite rolls the updates
back.  The `while` body has no `try/except`, so an uncaught exception
terminates the loop (the asyncio task dies).

The outcome of each external call is an input to the model (`Delivery`),
keyed by rowid. -/

/-- Row predicate of the eligibility query: `claimed_by IS NULL AND
created_at < ? AND reminded_at IS NULL`. -/
def eligible_row (cutoff : Int) (t : Ticket) : Bool :=
  t.claimed_by.isNone && decide (t.created_at < cutoff) && t.reminded_at.isNone

/-- The eligibility query of `reminder_loop` (lines 552–558). -/
def listReminderEligible (db : DB) (cutoff : Int) : List Ticket :=
  db.requests.filter (eligible_row cutoff)

/-- Outcome of one external network call. -/
inductive StepOutcome where
  | ok
  | fail
deriving DecidableEq, Repr

/-- Outcomes of the three external calls made for each row, keyed by rowid:
`fetchUser` (`bot.fetch_user`), `authorSend` (`author.send`) and `notify`
(`notify_restricted`). -/
structure Delivery where
  fetchUser : Nat → StepOutcome
  authorSend : Nat → StepOutcome
  notify : Nat → StepOutcome

/-- Observable events of one pass, in order of occurrence.
`rowUpdateBuffered` is the `reminded_at` update executed on the open
connection (persisted only by the final commit). -/
inductive Ev where
  | authorNotified (row_id : Nat)
  | channelAnnounced (row_id : Nat)
  | rowUpdateBuffered (row_id : Nat)
deriving DecidableEq, Repr

/-- The per-row body of the scan, producing the chronological event trace:
for each row, `bot.fetch_user` (an uncaught failure raises), the
`try`-wrapped `author.send` (a failure is suppressed, so no
`authorNotified` event), `notify_restricted` (an uncaught failure raises)
and then the buffered `reminded_at` update.  Returns the events up to the
uncaught exception (`.error`), or the full trace (`.ok`). -/
def processRows (deliv : Delivery) : List Ticket → Except (List Ev) (List Ev)
  | [] => .ok []
  | r :: rest =>
    match deliv.fetchUser r.id with
    | .fail => .error []
    | .ok =>
      let sent := match deliv.authorSend r.id with
        | .ok => [Ev.authorNotified r.id]
        | .fail => []
      match deliv.notify r.id with
      | .fail => .error sent
      | .ok =>
        let here := sent ++ [Ev.channelAnnounced r.id, Ev.rowUpdateBuffered r.id]
        match processRows deliv rest with
        | .ok evs => .ok (here ++ evs)
        | .error evs => .error (here ++ evs)

/-- `UPDATE requests SET reminded_at = ? WHERE id = ?`. -/
def mark_reminded (db : DB) (row_id : Nat) (now : Int) : DB :=
  { db with requests := db.requests.map (fun t =>
      if t.id == row_id then { t with reminded_at := some now } else t) }

/-- Apply the buffered `reminded_at` updates of a finished pass: the effect
of the single `db.commit()` after the row loop. -/
def commitWrites (db : DB) (now : Int) (evs : List Ev) : DB :=
  evs.foldl (fun d e =>
    match e with
    | .rowUpdateBuffered r => mark_reminded d r now
    | _ => d) db

/-- One firing of `reminder_loop`: query the eligible rows, process them,
commit on success.  On an uncaught exception the connection closes without
commit, so the state is returned unchanged together with the events that had
already happened. -/
def reminderPass (db : DB) (cutoff now : Int) (deliv : Delivery) :
    Except (DB × List Ev) (DB × List Ev) :=
  match processRows deliv (listReminderEligible db cutoff) with
  | .error evs => .error (db, evs)
  | .ok evs => .ok (commitWrites db now evs, evs)

/-- Inputs of one scheduler firing: the cutoff, the commit timestamp and the
external-call outcomes. -/
structure PassInput where
  cutoff : Int
  now : Int
  deliv : Delivery

/-- The `while not bot.is_closed()` loop, run for a given schedule of
firings.  Returns the final state, the event trace of each pass that ran and
whether the loop was terminated by an uncaught exception; after such an
exception no further pass runs. -/
def reminderLoop (db : DB) : List PassInput → DB × List (List Ev) × Bool
  | [] => (db, [], false)
  | p :: rest =>
    match reminderPass db p.cutoff p.now p.deliv with
    | .error s => (s.1, [s.2], true)
    | .ok s =>
      let r := reminderLoop s.1 rest
      (r.1, s.2 :: r.2.1, r.2.2)

/-- The state a pass leaves behind, whether or not it finished. -/
def passResultDB (r : Except (DB × List Ev) (DB × List Ev)) : DB :=
  match r with
  | .error s => s.1
  | .ok s => s.1

/-- A store-level sequence of atomic claim attempts on one row: fold
`claim_request` over the list of (claimant, timestamp) pairs, collecting each
attempt's boolean result. -/
def runClaims (db : DB) (row_id : Nat) : List (Int × Int) → List Bool × DB
  | [] => ([], db)
  | a :: rest =>
    let s := claim_request db row_id a.1 a.2
    let s' := runClaims s.2 row_id rest
    (s.1 :: s'.1, s'.2)

/-! ## Basic lemmas about the embedded store -/

theorem ext_id_to_row_roundtrip (rid : Nat) (h : 0 < rid) :
    ext_id_to_row (row_to_ext_id rid) = some rid := by
  simp only [ext_id_to_row, row_to_ext_id, ID_OFFSET]
  have h1 : (rid : Int) + 1000 - 1000 = (rid : Int) := by ring
  rw [h1]
  have h2 : ¬ ((rid : Int) ≤ 0) := by exact_mod_cast Nat.not_le.mpr h
  simp [h2, Int.toNat_natCast]

theorem row_to_ext_id_lt {a b : Nat} (h : a < b) :
    row_to_ext_id a < row_to_ext_id b := by
  simp only [row_to_ext_id, ID_OFFSET]
  omega

theorem row_to_ext_id_inj {a b : Nat} (h : row_to_ext_id a = row_to_ext_id b) :
    a = b := by
  simp only [row_to_ext_id, ID_OFFSET] at h
  omega

/-- Rewriting every row with an id-preserving function commutes with
`fetch_request`. -/
theorem fetch_request_map (db : DB) (q : Nat) (f : Ticket → Ticket)
    (hf : ∀ t, (f t).id = t.id) (os : List Int) (ps : List Int) :
    fetch_request { requests := db.requests.map f, oversighters := os,
                    ping_subscribers := ps } q =
      (fetch_request db q).map f := by
  simp only [fetch_request, List.find?_map]
  congr 1
  apply congrFun
  apply congrArg
  funext t
  simp [Function.comp, hf]

/-- Appending rows on the right does not change a successful lookup. -/
theorem fetch_request_append (db : DB) (q : Nat) (ts : List Ticket)
    (os : List Int) (ps : List Int)
    (h : (fetch_request db q).isSome) :
    fetch_request { requests := db.requests ++ ts, oversighters := os,
                    ping_subscribers := ps } q = fetch_request db q := by
  simp only [fetch_request, List.find?_append]
  rw [Option.isSome_iff_exists] at h
  obtain ⟨t, ht⟩ := h
  simp only [fetch_request] at ht
  simp [ht]

/-- Rewriting with an id-preserving function preserves `NodupIds`. -/
theorem nodupIds_map (db : DB) (f : Ticket → Ticket)
    (hf : ∀ t, (f t).id = t.id) (os : List Int) (ps : List Int)
    (h : db.NodupIds) :
    DB.NodupIds { requests := db.requests.map f, oversighters := os,
                  ping_subscribers := ps } := by
  simp only [DB.NodupIds, List.map_map] at h ⊢
  have : Ticket.id ∘ f = Ticket.id := by
    funext t; exact hf t
  rw [this]
  exact h

/-- Under distinct ids, a row of the table is exactly what `fetch_request`
returns for its id. -/
theorem fetch_request_eq_of_mem (db : DB) (t : Ticket) (h : db.NodupIds)
    (ht : t ∈ db.requests) : fetch_request db t.id = some t := by
  have hs : (fetch_request db t.id).isSome := by
    rw [fetch_request, List.find?_isSome]
    exact ⟨t, ht, by simp⟩
  rw [Option.isSome_iff_exists] at hs
  obtain ⟨t', ht'⟩ := hs
  have hmem : t' ∈ db.requests := List.mem_of_find?_eq_some ht'
  have hid : t'.id = t.id := by
    have := List.find?_some ht'
    simpa using this
  have : t' = t := List.inj_on_of_nodup_map h hmem ht hid
  rw [ht', this]

/-- Rows found by `fetch_request` belong to the table. -/
theorem fetch_request_mem {db : DB} {q : Nat} {t : Ticket}
    (h : fetch_request db q = some t) : t ∈ db.requests ∧ t.id = q := by
  refine ⟨List.mem_of_find?_eq_some h, ?_⟩
  have := List.find?_some h
  simpa using this

/-- The row-rewriting function of `claim_request`. -/
def claim_upd (row_id : Nat) (u n : Int) (t : Ticket) : Ticket :=
  if claim_hit row_id t then
    { t with claimed_by := some u, claimed_at := some n }
  else t

theorem claim_upd_id (row_id : Nat) (u n : Int) (t : Ticket) :
    (claim_upd row_id u n t).id = t.id := by
  unfold claim_upd
  split <;> rfl

theorem claim_request_snd (db : DB) (rid : Nat) (u n : Int) :
    (claim_request db rid u n).2 =
      { requests := db.requests.map (claim_upd rid u n),
        oversighters := db.oversighters,
        ping_subscribers := db.ping_subscribers } := rfl

/-- `fetch_request` after the atomic conditional update. -/
theorem claim_request_fetch_after (db : DB) (rid : Nat) (u n : Int) (q : Nat) :
    fetch_request (claim_request db rid u n).2 q =
      (fetch_request db q).map (claim_upd rid u n) := by
  rw [claim_request_snd]
  exact fetch_request_map db q _ (claim_upd_id rid u n) _ _

/-- Row count of the conditional update, under distinct ids: `1` exactly when
the row exists and is unclaimed. -/
theorem countP_claim_hit_list (rid : Nat) :
    ∀ (l : List Ticket), (l.map Ticket.id).Nodup →
    l.countP (claim_hit rid) =
      (match l.find? (fun t => t.id == rid) with
       | some t => if t.claimed_by.isNone then 1 else 0
       | none => 0)
  | [], _ => by simp
  | a :: l, h => by
    simp only [List.map_cons, List.nodup_cons, List.mem_map] at h
    obtain ⟨hni, hnd⟩ := h
    rw [List.countP_cons, countP_claim_hit_list rid l hnd, List.find?_cons]
    by_cases ha : a.id = rid
    · have hz : l.countP (claim_hit rid) = 0 := by
        rw [List.countP_eq_zero]
        intro t htl
        simp only [claim_hit, Bool.and_eq_true, beq_iff_eq]
        rintro ⟨h1, _⟩
        exact hni ⟨t, htl, by rw [h1, ha]⟩
      rw [countP_claim_hit_list rid l hnd] at hz
      simp only [ha, beq_self_eq_true, claim_hit]
      rw [hz]
      cases hcb : a.claimed_by <;> simp [ha]
    · have : (a.id == rid) = false := by simp [ha]
      simp [claim_hit, this]

/-- The boolean returned by `claim_request` is true iff the row exists and
its `claimed_by` is NULL. -/
theorem claim_request_fst (db : DB) (rid : Nat) (u n : Int)
    (h : db.NodupIds) :
    (claim_request db rid u n).1 = true ↔
      ∃ t, fetch_request db rid = some t ∧ t.claimed_by = none := by
  simp only [claim_request]
  rw [countP_claim_hit_list rid db.requests h]
  unfold fetch_request
  cases hf : db.requests.find? (fun t => t.id == rid) with
  | none => simp
  | some t =>
    cases hcb : t.claimed_by with
    | none => simp [hcb]
    | some w => simp [hcb]

/-- A failed claim (row missing or already claimed) leaves the state
unchanged. -/
theorem claim_request_noop (db : DB) (rid : Nat) (u n : Int)
    (h : db.NodupIds)
    (hc : ∀ t, fetch_request db rid = some t → t.claimed_by ≠ none) :
    claim_request db rid u n = (false, db) := by
  have hzero : db.requests.countP (claim_hit rid) = 0 := by
    rw [List.countP_eq_zero]
    intro t htl hhit
    simp only [claim_hit, Bool.and_eq_true, beq_iff_eq,
      Option.isNone_iff_eq_none] at hhit
    obtain ⟨h1, h2⟩ := hhit
    have := fetch_request_eq_of_mem db t h htl
    rw [h1] at this
    exact hc t this h2
  have hmap : db.requests.map (fun t =>
      if claim_hit rid t then
        { t with claimed_by := some u, claimed_at := some n }
      else t) = db.requests := by
    rw [List.countP_eq_zero] at hzero
    have : ∀ t ∈ db.requests, (fun t =>
        if claim_hit rid t then
          { t with claimed_by := some u, claimed_at := some n }
        else t) t = id t := by
      intro t htl
      simp [hzero t htl]
    rw [List.map_congr_left this, List.map_id]
  simp only [claim_request, hzero, hmap]
  rfl

/-- A successful claim: the row becomes claimed by the caller. -/
theorem claim_request_succ (db : DB) (rid : Nat) (u n : Int) (t : Ticket)
    (h : db.NodupIds) (hf : fetch_request db rid = some t)
    (hc : t.claimed_by = none) :
    (claim_request db rid u n).1 = true ∧
    fetch_request (claim_request db rid u n).2 rid =
      some { t with claimed_by := some u, claimed_at := some n } := by
  constructor
  · exact (claim_request_fst db rid u n h).mpr ⟨t, hf, hc⟩
  · rw [claim_request_fetch_after, hf]
    have hhit : claim_hit rid t = true := by
      have := (fetch_request_mem hf).2
      simp [claim_hit, this, hc]
    simp [claim_upd, hhit]

/-- A claimed row is never overwritten by a later claim attempt, and other
rows are untouched. -/
theorem claim_request_frozen (db : DB) (rid : Nat) (u n : Int) (q : Nat)
    (w : Int) (hw : claimed_by_of db q = some w) :
    claimed_by_of (claim_request db rid u n).2 q = some w := by
  simp only [claimed_by_of] at hw ⊢
  rw [claim_request_fetch_after]
  cases hf : fetch_request db q with
  | none => rw [hf] at hw; simp at hw
  | some t =>
    rw [hf] at hw
    replace hw : t.claimed_by = some w := by simpa using hw
    have hhit : claim_hit rid t = false := by
      simp [claim_hit, hw]
    simp [claim_upd, hhit, hw]

/-- Claims never change which rows exist. -/
theorem claim_request_isSome (db : DB) (rid : Nat) (u n : Int) (q : Nat) :
    (fetch_request (claim_request db rid u n).2 q).isSome =
      (fetch_request db q).isSome := by
  rw [claim_request_fetch_after]
  cases fetch_request db q <;> simp

/-- Claims touch no row other than their target. -/
theorem claim_request_other (db : DB) (rid : Nat) (u n : Int) (q : Nat)
    (hq : q ≠ rid) :
    fetch_request (claim_request db rid u n).2 q = fetch_request db q := by
  rw [claim_request_fetch_after]
  cases hf : fetch_request db q with
  | none => simp
  | some t =>
    have hhit : claim_hit rid t = false := by
      have := (fetch_request_mem hf).2
      simp [claim_hit, this, hq]
    simp [claim_upd, hhit]

/-- Claims preserve `NodupIds`. -/
theorem claim_request_nodup (db : DB) (rid : Nat) (u n : Int)
    (h : db.NodupIds) : DB.NodupIds (claim_request db rid u n).2 := by
  rw [claim_request_snd]
  exact nodupIds_map db _ (claim_upd_id rid u n) _ _ h

theorem runClaims_frozen (rid : Nat) (attempts : List (Int × Int)) :
    ∀ (db : DB) (w : Int), db.NodupIds → claimed_by_of db rid = some w →
    (runClaims db rid attempts).1.count true = 0 ∧
      claimed_by_of (runClaims db rid attempts).2 rid = some w ∧
      DB.NodupIds (runClaims db rid attempts).2 := by
  induction attempts with
  | nil => intro db w h hw; exact ⟨rfl, hw, h⟩
  | cons a rest ih =>
    intro db w h hw
    have hfst : (claim_request db rid a.1 a.2).1 = false := by
      cases hb : (claim_request db rid a.1 a.2).1 with
      | false => rfl
      | true =>
        obtain ⟨t, hf, hc⟩ := (claim_request_fst db rid a.1 a.2 h).mp hb
        simp only [claimed_by_of, hf] at hw
        simp only [Option.bind] at hw
        rw [hc] at hw
        exact absurd hw (by simp)
    have hnd' := claim_request_nodup db rid a.1 a.2 h
    have hw' := claim_request_frozen db rid a.1 a.2 rid w hw
    obtain ⟨hcnt, hcb, hnd''⟩ := ih (claim_request db rid a.1 a.2).2 w hnd' hw'
    refine ⟨?_, hcb, hnd''⟩
    simp [runClaims, hfst, hcnt]

theorem runClaims_le_one (rid : Nat) (attempts : List (Int × Int)) :
    ∀ (db : DB), db.NodupIds →
    (runClaims db rid attempts).1.count true ≤ 1 ∧
      DB.NodupIds (runClaims db rid attempts).2 ∧
      (1 ≤ (runClaims db rid attempts).1.count true →
        ∃ u, claimed_by_of (runClaims db rid attempts).2 rid = some u) := by
  induction attempts with
  | nil =>
    intro db h
    exact ⟨by simp [runClaims], h, by simp [runClaims]⟩
  | cons a rest ih =>
    intro db h
    have hnd' := claim_request_nodup db rid a.1 a.2 h
    cases hfst : (claim_request db rid a.1 a.2).1 with
    | true =>
      obtain ⟨t, hf, hc⟩ := (claim_request_fst db rid a.1 a.2 h).mp hfst
      have hsucc := claim_request_succ db rid a.1 a.2 t h hf hc
      have hcb : claimed_by_of (claim_request db rid a.1 a.2).2 rid =
          some a.1 := by
        simp only [claimed_by_of, hsucc.2]
        rfl
      obtain ⟨hcnt, hcb', hnd''⟩ :=
        runClaims_frozen rid rest (claim_request db rid a.1 a.2).2 a.1 hnd' hcb
      refine ⟨?_, hnd'', ?_⟩
      · simp [runClaims, hfst, hcnt]
      · intro _; exact ⟨a.1, hcb'⟩
    | false =>
      obtain ⟨hle, hnd'', hex⟩ := ih (claim_request db rid a.1 a.2).2 hnd'
      refine ⟨?_, hnd'', ?_⟩
      · simp only [runClaims, hfst]
        simpa using hle
      · intro hone
        apply hex
        simp only [runClaims, hfst] at hone
        simpa using hone

theorem runClaims_append (db : DB) (rid : Nat) (as bs : List (Int × Int)) :
    runClaims db rid (as ++ bs) =
      ((runClaims db rid as).1 ++ (runClaims (runClaims db rid as).2 rid bs).1,
       (runClaims (runClaims db rid as).2 rid bs).2) := by
  induction as generalizing db with
  | nil => simp [runClaims]
  | cons a rest ih => simp [runClaims, ih]

/-- C1: at most one of any sequence of store-level claim attempts on a given
row ever succeeds; once the row is claimed, every later attempt returns
false and `claimed_by` is never overwritten; and after any prefix of the
sequence containing a success, every attempt of the remaining suffix
fails. -/
theorem claim_attempts_at_most_one_success (db : DB) (rid : Nat)
    (attempts : List (Int × Int)) (h : db.NodupIds) :
    (runClaims db rid attempts).1.count true ≤ 1 ∧
    (∀ w, claimed_by_of db rid = some w →
      (runClaims db rid attempts).1.count true = 0 ∧
      claimed_by_of (runClaims db rid attempts).2 rid = some w) ∧
    (∀ as bs, attempts = as ++ bs →
      1 ≤ (runClaims db rid as).1.count true →
      (runClaims (runClaims db rid as).2 rid bs).1.count true = 0) := by
  refine ⟨(runClaims_le_one rid attempts db h).1, ?_, ?_⟩
  · intro w hw
    obtain ⟨h1, h2, _⟩ := runClaims_frozen rid attempts db w h hw
    exact ⟨h1, h2⟩
  · intro as bs _ hone
    obtain ⟨_, hnd', hex⟩ := runClaims_le_one rid as db h
    obtain ⟨u, hu⟩ := hex hone
    exact (runClaims_frozen rid bs (runClaims db rid as).2 u hnd' hu).1

/-- Concrete state for exercising C1: one unclaimed ticket with rowid 1. -/
def dbC1 : DB :=
  { requests := [{ id := 1, author_id := 42, text := "req", created_at := 5,
                   claimed_by := none, claimed_at := none, reminded_at := none,
                   message_id := none }],
    oversighters := [], ping_subscribers := [] }

theorem claim_attempts_at_most_one_success_witness :
    (runClaims dbC1 1 [(7, 10), (8, 11), (7, 12)]).1.count true ≤ 1 ∧
    (runClaims dbC1 1 [(7, 10), (8, 11), (7, 12)]).1 =
      [true, false, false] :=
  ⟨(claim_attempts_at_most_one_success dbC1 1 [(7, 10), (8, 11), (7, 12)]
      (by unfold DB.NodupIds; decide)).1,
   by decide⟩

/-- C9: the reviewer-set and ping-subscription operations are idempotent,
and removing or unsubscribing a non-member changes nothing. -/
theorem membership_ops_idempotent (db : DB) (u : Int) :
    add_oversighter (add_oversighter db u) u = add_oversighter db u ∧
    remove_oversighter (remove_oversighter db u) u = remove_oversighter db u ∧
    add_ping_sub (add_ping_sub db u) u = add_ping_sub db u ∧
    remove_ping_sub (remove_ping_sub db u) u = remove_ping_sub db u ∧
    (db.oversighters.contains u = false → remove_oversighter db u = db) ∧
    (db.ping_subscribers.contains u = false → remove_ping_sub db u = db) := by
  refine ⟨?_, ?_, ?_, ?_, ?_, ?_⟩
  · by_cases hm : u ∈ db.oversighters
    · simp [add_oversighter, hm]
    · simp [add_oversighter, hm]
  · simp only [remove_oversighter]
    rw [List.filter_filter]
    simp only [Bool.and_self]
  · by_cases hm : u ∈ db.ping_subscribers
    · simp [add_ping_sub, hm]
    · simp [add_ping_sub, hm]
  · simp only [remove_ping_sub]
    rw [List.filter_filter]
    simp only [Bool.and_self]
  · intro hc
    have hfil : db.oversighters.filter (fun x => x != u) = db.oversighters := by
      rw [List.filter_eq_self]
      intro a ha
      rw [bne_iff_ne]
      intro heq
      subst heq
      have : db.oversighters.contains a = true :=
        List.contains_iff_exists_mem_beq.mpr ⟨a, ha, by simp⟩
      rw [hc] at this
      exact absurd this (by simp)
    simp only [remove_oversighter, hfil]
  · intro hc
    have hfil : db.ping_subscribers.filter (fun x => x != u) =
        db.ping_subscribers := by
      rw [List.filter_eq_self]
      intro a ha
      rw [bne_iff_ne]
      intro heq
      subst heq
      have : db.ping_subscribers.contains a = true :=
        List.contains_iff_exists_mem_beq.mpr ⟨a, ha, by simp⟩
      rw [hc] at this
      exact absurd this (by simp)
    simp only [remove_ping_sub, hfil]

/-- Concrete state for exercising C9. -/
def dbC9 : DB := { requests := [], oversighters := [3], ping_subscribers := [4] }

theorem membership_ops_idempotent_witness :
    remove_oversighter dbC9 5 = dbC9 ∧ remove_ping_sub dbC9 5 = dbC9 ∧
    add_oversighter (add_oversighter dbC9 3) 3 = add_oversighter dbC9 3 :=
  ⟨(membership_ops_idempotent dbC9 5).2.2.2.2.1 (by decide),
   (membership_ops_idempotent dbC9 5).2.2.2.2.2 (by decide),
   (membership_ops_idempotent dbC9 3).1⟩

theorem sortedById_nodupIds (db : DB) (h : db.SortedById) : db.NodupIds := by
  simp only [DB.NodupIds, List.Nodup, List.pairwise_map]
  exact h.imp fun hlt => Nat.ne_of_lt hlt

/-- Characterization of `list_pending`: exactly the (external) ids of the
unclaimed tickets, in ascending order. -/
theorem list_pending_chars (db : DB) (h : db.SortedById) :
    (∀ t ∈ db.requests,
      (row_to_ext_id t.id ∈ list_pending db ↔ t.claimed_by = none)) ∧
    (∀ e ∈ list_pending db, ∃ t, t ∈ db.requests ∧ t.claimed_by = none ∧
      e = row_to_ext_id t.id) ∧
    List.Pairwise (· < ·) (list_pending db) := by
  have hnd := sortedById_nodupIds db h
  refine ⟨?_, ?_, ?_⟩
  · intro t ht
    constructor
    · intro hm
      simp only [list_pending, List.mem_map, List.mem_filter] at hm
      obtain ⟨t', ⟨ht'm, ht'n⟩, heq⟩ := hm
      have hid : t'.id = t.id := row_to_ext_id_inj heq
      have : t' = t := List.inj_on_of_nodup_map hnd ht'm ht hid
      rw [← this]
      exact Option.isNone_iff_eq_none.mp ht'n
    · intro hn
      simp only [list_pending, List.mem_map, List.mem_filter]
      exact ⟨t, ⟨ht, Option.isNone_iff_eq_none.mpr hn⟩, rfl⟩
  · intro e he
    simp only [list_pending, List.mem_map, List.mem_filter] at he
    obtain ⟨t, ⟨htm, htn⟩, heq⟩ := he
    exact ⟨t, htm, Option.isNone_iff_eq_none.mp htn, heq.symm⟩
  · simp only [list_pending, List.pairwise_map]
    exact (h.filter _).imp fun hlt => row_to_ext_id_lt hlt

/-- C8: `list_pending` returns exactly the (external) ids of the unclaimed
tickets, in ascending order. -/
theorem list_pending_spec (db : DB) (h : db.SortedById) :
    (∀ t ∈ db.requests,
      (row_to_ext_id t.id ∈ list_pending db ↔ t.claimed_by = none)) ∧
    (∀ e ∈ list_pending db, ∃ t, t ∈ db.requests ∧ t.claimed_by = none ∧
      e = row_to_ext_id t.id) ∧
    List.Pairwise (· < ·) (list_pending db) :=
  list_pending_chars db h

/-- Concrete state for exercising C8: rows 1 (claimed) and 2 (unclaimed). -/
def dbC8 : DB :=
  { requests :=
      [{ id := 1, author_id := 41, text := "a", created_at := 0,
         claimed_by := some 9, claimed_at := some 3, reminded_at := none,
         message_id := none },
       { id := 2, author_id := 42, text := "b", created_at := 1,
         claimed_by := none, claimed_at := none, reminded_at := none,
         message_id := none }],
    oversighters := [], ping_subscribers := [] }

/-- The unclaimed row of `dbC8`. -/
def ticketC8 : Ticket :=
  { id := 2, author_id := 42, text := "b", created_at := 1,
    claimed_by := none, claimed_at := none, reminded_at := none,
    message_id := none }

theorem list_pending_spec_witness :
    row_to_ext_id ticketC8.id ∈ list_pending dbC8 := by
  have h : dbC8.SortedById := by
    unfold DB.SortedById
    decide
  exact ((list_pending_spec dbC8 h).1 ticketC8 (by decide)).mpr rfl

/-- C5: `create_request` rejects with `RateLimitExceeded` (carrying the
configured window) exactly when the submitter is neither a bot-admin nor an
oversighter and already has two or more tickets inside the trailing window;
exempt submitters always proceed to creation; on success the new ticket is
appended with the submission timestamp; once fewer than two tickets remain
inside the window the next submission succeeds. -/
theorem submit_rate_limited_iff (cfg : Config) (db : DB) (author_id : Int)
    (text : String) (nowCount nowInsert : Int) :
    ((cfg.bot_admins.contains author_id || is_oversighter db author_id) = true →
      ∃ db', create_request cfg db author_id text nowCount nowInsert =
        .ok (row_to_ext_id (next_id db), db')) ∧
    ((∃ e, create_request cfg db author_id text nowCount nowInsert = .error e) ↔
      ((cfg.bot_admins.contains author_id || is_oversighter db author_id) = false ∧
        2 ≤ recent_request_count cfg db author_id nowCount)) ∧
    (∀ e, create_request cfg db author_id text nowCount nowInsert = .error e →
      e = .rateLimitExceeded cfg.cooldown_seconds) ∧
    (∀ ext db', create_request cfg db author_id text nowCount nowInsert =
        .ok (ext, db') →
      db'.requests = db.requests ++
        [{ id := next_id db, author_id := author_id, text := text,
           created_at := nowInsert, claimed_by := none, claimed_at := none,
           reminded_at := none, message_id := none }]) ∧
    (recent_request_count cfg db author_id nowCount < 2 →
      ∃ p, create_request cfg db author_id text nowCount nowInsert = .ok p) := by
  by_cases hex : (cfg.bot_admins.contains author_id ||
      is_oversighter db author_id) = true
  · have hstep : create_request cfg db author_id text nowCount nowInsert =
        .ok (row_to_ext_id (next_id db),
          { db with requests := db.requests ++
              [{ id := next_id db, author_id := author_id, text := text,
                 created_at := nowInsert, claimed_by := none,
                 claimed_at := none, reminded_at := none,
                 message_id := none }] }) := by
      unfold create_request
      rw [hex]
      rfl
    refine ⟨fun _ => ⟨_, hstep⟩, ?_, ?_, ?_, ?_⟩
    · constructor
      · rintro ⟨e, he⟩
        rw [hstep] at he
        exact absurd he (by simp)
      · rintro ⟨hb, _⟩
        rw [hex] at hb
        exact absurd hb (by simp)
    · intro e he
      rw [hstep] at he
      exact absurd he (by simp)
    · intro ext db' hok
      rw [hstep] at hok
      simp only [Except.ok.injEq, Prod.mk.injEq] at hok
      rw [← hok.2]
    · intro _
      exact ⟨_, hstep⟩
  · rw [Bool.not_eq_true] at hex
    by_cases hcnt : 2 ≤ recent_request_count cfg db author_id nowCount
    · have hstep : create_request cfg db author_id text nowCount nowInsert =
          .error (.rateLimitExceeded cfg.cooldown_seconds) := by
        unfold create_request
        rw [hex]
        simp [hcnt]
      refine ⟨?_, ?_, ?_, ?_, ?_⟩
      · intro hx
        rw [hex] at hx
        exact absurd hx (by simp)
      · exact ⟨fun _ => ⟨hex, hcnt⟩, fun _ => ⟨_, hstep⟩⟩
      · intro e he
        rw [hstep] at he
        simp only [Except.error.injEq] at he
        exact he.symm
      · intro ext db' hok
        rw [hstep] at hok
        exact absurd hok (by simp)
      · intro hlt
        omega
    · have hstep : create_request cfg db author_id text nowCount nowInsert =
          .ok (row_to_ext_id (next_id db),
            { db with requests := db.requests ++
                [{ id := next_id db, author_id := author_id, text := text,
                   created_at := nowInsert, claimed_by := none,
                   claimed_at := none, reminded_at := none,
                   message_id := none }] }) := by
        unfold create_request
        rw [hex]
        simp [hcnt]
      refine ⟨?_, ?_, ?_, ?_, ?_⟩
      · intro hx
        rw [hex] at hx
        exact absurd hx (by simp)
      · constructor
        · rintro ⟨e, he⟩
          rw [hstep] at he
          exact absurd he (by simp)
        · rintro ⟨_, h2⟩
          exact absurd h2 hcnt
      · intro e he
        rw [hstep] at he
        exact absurd he (by simp)
      · intro ext db' hok
        rw [hstep] at hok
        simp only [Except.ok.injEq, Prod.mk.injEq] at hok
        rw [← hok.2]
      · intro _
        exact ⟨_, hstep⟩

/-- Configuration for exercising C5: 600-second window, no bot-admins. -/
def cfgC5 : Config := { cooldown_seconds := 600, reminder_minutes := 15,
                        bot_admins := [5] }

/-- Concrete state for exercising C5: author 42 has submitted at t=90 and
t=95; author 5 is a bot-admin. -/
def dbC5 : DB :=
  { requests :=
      [{ id := 1, author_id := 42, text := "a", created_at := 90,
         claimed_by := none, claimed_at := none, reminded_at := none,
         message_id := none },
       { id := 2, author_id := 42, text := "b", created_at := 95,
         claimed_by := none, claimed_at := none, reminded_at := none,
         message_id := none }],
    oversighters := [], ping_subscribers := [] }

theorem submit_rate_limited_iff_witness :
    create_request cfgC5 dbC5 42 "c" 100 101 =
      .error (.rateLimitExceeded 600) ∧
    (create_request cfgC5 dbC5 42 "d" 700 701).isOk = true ∧
    (create_request cfgC5 dbC5 5 "e" 100 101).isOk = true := by
  refine ⟨?_, ?_, ?_⟩
  · obtain ⟨e, he⟩ := (submit_rate_limited_iff cfgC5 dbC5 42 "c" 100 101).2.1.mpr
      ⟨by decide, by decide⟩
    have hev := (submit_rate_limited_iff cfgC5 dbC5 42 "c" 100 101).2.2.1 e he
    rw [hev] at he
    exact he
  · obtain ⟨p, hp⟩ := (submit_rate_limited_iff cfgC5 dbC5 42 "d" 700 701).2.2.2.2
      (by decide)
    rw [hp]
    rfl
  · obtain ⟨db', hp⟩ := (submit_rate_limited_iff cfgC5 dbC5 5 "e" 100 101).1
      (by decide)
    rw [hp]
    rfl

/-- C6: `create_request` and `claim_request` write timestamps with the
timezone-aware UTC clock, but `reminder_loop` computes its cutoff (and
`reminded_at`) with `datetime.utcnow().timestamp()`, which is shifted by the
host's UTC offset; on any host not running in UTC the cutoff is *not* the
current UTC epoch second minus `reminderMinutes*60`. -/
theorem reminder_cutoff_clock_skew (e off r : Int) :
    now_utc_timestamp e off = e ∧
    reminder_cutoff e off r = e - off - r * 60 ∧
    (off ≠ 0 → reminder_cutoff e off r ≠ e - r * 60) := by
  refine ⟨rfl, ?_, ?_⟩
  · unfold reminder_cutoff utcnow_timestamp
    ring
  · intro hoff
    unfold reminder_cutoff utcnow_timestamp
    omega

theorem reminder_cutoff_clock_skew_witness :
    ((3600 : Int) ≠ 0) ∧ reminder_cutoff 1000000 3600 15 ≠ 1000000 - 15 * 60 :=
  ⟨by decide, (reminder_cutoff_clock_skew 1000000 3600 15).2.2 (by decide)⟩

/-- Concrete state for exercising C2: one unclaimed ticket with rowid 1
(external id 1001), submitted by user 42. -/
def dbC2 : DB :=
  { requests := [{ id := 1, author_id := 42, text := "req", created_at := 5,
                   claimed_by := none, claimed_at := none, reminded_at := none,
                   message_id := none }],
    oversighters := [], ping_subscribers := [] }

/-- C2 (refuted on the code): the single-ID claim flow handles the missing
ticket and the claimed-at-fetch cases as claimed, but when the atomic claim
attempt returns false because a competing claimant (99) won between
`_claim_one`'s fetch and its conditional update, no retry fetch happens and
the losing caller (7) is sent the *success* reply while the ticket belongs
to 99 — contradicting "a caller whose atomic update modified zero rows is
never reported a success". -/
theorem claim_single_race_misreported :
    (claim_cmd_single dbC2 7 100 1002 none).1 = [Msg.unknownTicket] ∧
    (claim_cmd_single dbC2 31 100 1001 none).1 = [Msg.claimedOk 1001] ∧
    (claim_cmd_single (claim_cmd_single dbC2 31 100 1001 none).2
        32 105 1001 none).1 = [Msg.alreadyClaimed (some 31)] ∧
    claimed_by_of dbC2 1 = none ∧
    (claim_cmd_single dbC2 7 100 1001 (some (99, 95))).1 =
      [Msg.claimedOk 1001] ∧
    claimed_by_of (claim_cmd_single dbC2 7 100 1001 (some (99, 95))).2 1 =
      some 99 := by
  decide

theorem mark_reminded_fetch (db : DB) (r : Nat) (n : Int) (q : Nat) :
    fetch_request (mark_reminded db r n) q =
      (fetch_request db q).map (fun t =>
        if t.id == r then { t with reminded_at := some n } else t) := by
  have := fetch_request_map db q
    (fun t => if t.id == r then { t with reminded_at := some n } else t)
    (fun t => by dsimp only; split <;> rfl)
    db.oversighters db.ping_subscribers
  exact this

theorem mark_reminded_claimed (db : DB) (r : Nat) (n : Int) (q : Nat) :
    claimed_by_of (mark_reminded db r n) q = claimed_by_of db q := by
  simp only [claimed_by_of, mark_reminded_fetch]
  cases fetch_request db q with
  | none => rfl
  | some t =>
    have hred : Option.map (fun t =>
        if t.id == r then { t with reminded_at := some n } else t) (some t) =
        some (if t.id == r then { t with reminded_at := some n } else t) := rfl
    rw [hred]
    split <;> rfl

theorem mark_reminded_isSome (db : DB) (r : Nat) (n : Int) (q : Nat) :
    (fetch_request (mark_reminded db r n) q).isSome =
      (fetch_request db q).isSome := by
  rw [mark_reminded_fetch]
  cases fetch_request db q <;> rfl

theorem mark_reminded_other (db : DB) (r : Nat) (n : Int) (q : Nat)
    (hq : q ≠ r) :
    fetch_request (mark_reminded db r n) q = fetch_request db q := by
  rw [mark_reminded_fetch]
  cases hf : fetch_request db q with
  | none => rfl
  | some t =>
    have ht := (fetch_request_mem hf).2
    have hne : t.id ≠ r := by
      rw [ht]; exact hq
    simp [hne]

theorem mark_reminded_set (db : DB) (r : Nat) (n : Int)
    (hs : (fetch_request db r).isSome = true) :
    reminded_of (mark_reminded db r n) r = some n := by
  rw [Option.isSome_iff_exists] at hs
  obtain ⟨t, ht⟩ := hs
  have hid := (fetch_request_mem ht).2
  simp only [reminded_of, mark_reminded_fetch, ht, Option.map_some]
  simp [hid]

theorem mark_reminded_nodup (db : DB) (r : Nat) (n : Int)
    (h : db.NodupIds) : DB.NodupIds (mark_reminded db r n) := by
  exact nodupIds_map db _ (fun t => by split <;> rfl) _ _ h

/-- `commitWrites` step on a non-update event is the identity. -/
theorem commitWrites_cons_other (db : DB) (n : Int) (e : Ev) (evs : List Ev)
    (he : ∀ r, e ≠ Ev.rowUpdateBuffered r) :
    commitWrites db n (e :: evs) = commitWrites db n evs := by
  cases e with
  | authorNotified r => rfl
  | channelAnnounced r => rfl
  | rowUpdateBuffered r => exact absurd rfl (he r)

theorem commitWrites_spec (n : Int) (rid : Nat) :
    ∀ (evs : List Ev) (db : DB),
    claimed_by_of (commitWrites db n evs) rid = claimed_by_of db rid ∧
    (fetch_request (commitWrites db n evs) rid).isSome =
      (fetch_request db rid).isSome ∧
    (Ev.rowUpdateBuffered rid ∉ evs →
      fetch_request (commitWrites db n evs) rid = fetch_request db rid) ∧
    (Ev.rowUpdateBuffered rid ∈ evs → (fetch_request db rid).isSome = true →
      reminded_of (commitWrites db n evs) rid = some n)
  | [], db => by
    refine ⟨rfl, rfl, fun _ => rfl, fun hmem _ => absurd hmem (by simp)⟩
  | e :: evs, db => by
    cases e with
    | rowUpdateBuffered r =>
      have hstep : commitWrites db n (Ev.rowUpdateBuffered r :: evs) =
          commitWrites (mark_reminded db r n) n evs := rfl
      obtain ⟨ih1, ih2, ih3, ih4⟩ := commitWrites_spec n rid evs (mark_reminded db r n)
      refine ⟨?_, ?_, ?_, ?_⟩
      · rw [hstep, ih1, mark_reminded_claimed]
      · rw [hstep, ih2, mark_reminded_isSome]
      · intro hni
        have hr : rid ≠ r := by
          intro heq
          exact hni (by rw [heq]; exact List.mem_cons_self _ _)
        have hni' : Ev.rowUpdateBuffered rid ∉ evs := by
          intro hm
          exact hni (List.mem_cons_of_mem _ hm)
        rw [hstep, ih3 hni', mark_reminded_other db r n rid hr]
      · intro hmem hs
        by_cases hr : rid = r
        · subst hr
          by_cases hin : Ev.rowUpdateBuffered rid ∈ evs
          · rw [hstep]
            exact ih4 hin (by rw [mark_reminded_isSome]; exact hs)
          · rw [hstep]
            have := ih3 hin
            simp only [reminded_of, this]
            have := mark_reminded_set db rid n hs
            simpa only [reminded_of] using this
        · have hin : Ev.rowUpdateBuffered rid ∈ evs := by
            rcases List.mem_cons.mp hmem with h1 | h2
            · exact absurd (by injection h1) hr
            · exact h2
          rw [hstep]
          exact ih4 hin (by rw [mark_reminded_isSome]; exact hs)
    | authorNotified r =>
      obtain ⟨ih1, ih2, ih3, ih4⟩ := commitWrites_spec n rid evs db
      refine ⟨ih1, ih2, ?_, ?_⟩
      · intro hni
        exact ih3 (fun hm => hni (List.mem_cons_of_mem _ hm))
      · intro hmem hs
        have hin : Ev.rowUpdateBuffered rid ∈ evs := by
          rcases List.mem_cons.mp hmem with h1 | h2
          · exact absurd h1 (by simp)
          · exact h2
        exact ih4 hin hs
    | channelAnnounced r =>
      obtain ⟨ih1, ih2, ih3, ih4⟩ := commitWrites_spec n rid evs db
      refine ⟨ih1, ih2, ?_, ?_⟩
      · intro hni
        exact ih3 (fun hm => hni (List.mem_cons_of_mem _ hm))
      · intro hmem hs
        have hin : Ev.rowUpdateBuffered rid ∈ evs := by
          rcases List.mem_cons.mp hmem with h1 | h2
          · exact absurd h1 (by simp)
          · exact h2
        exact ih4 hin hs

theorem commitWrites_nodup (n : Int) :
    ∀ (evs : List Ev) (db : DB), db.NodupIds →
      DB.NodupIds (commitWrites db n evs)
  | [], db, h => h
  | e :: evs, db, h => by
    cases e with
    | rowUpdateBuffered r =>
      exact commitWrites_nodup n evs (mark_reminded db r n)
        (mark_reminded_nodup db r n h)
    | authorNotified r => exact commitWrites_nodup n evs db h
    | channelAnnounced r => exact commitWrites_nodup n evs db h

/-- The row a pass event concerns. -/
def evRow : Ev → Nat
  | .authorNotified r => r
  | .channelAnnounced r => r
  | .rowUpdateBuffered r => r

/-- Events produced by the scan concern only scanned rows. -/
theorem processRows_sub (deliv : Delivery) :
    ∀ (rows : List Ticket),
    (∀ evs, processRows deliv rows = .ok evs →
      ∀ ev ∈ evs, evRow ev ∈ rows.map Ticket.id) ∧
    (∀ evs, processRows deliv rows = .error evs →
      ∀ ev ∈ evs, evRow ev ∈ rows.map Ticket.id)
  | [] => by
    constructor
    · intro evs hok ev hev
      simp only [processRows, Except.ok.injEq] at hok
      rw [← hok] at hev
      exact absurd hev (by simp)
    · intro evs herr
      simp [processRows] at herr
  | r :: rest => by
    have ih := processRows_sub deliv rest
    have hmem : ∀ ev ∈ [Ev.authorNotified r.id] ++
        [Ev.channelAnnounced r.id, Ev.rowUpdateBuffered r.id],
        evRow ev ∈ (r :: rest).map Ticket.id := by
      intro ev hev
      simp only [List.mem_append, List.mem_cons, List.not_mem_nil,
        or_false] at hev
      rcases hev with rfl | rfl | rfl <;> simp [evRow]
    have hmem' : ∀ ev ∈ ([] : List Ev) ++
        [Ev.channelAnnounced r.id, Ev.rowUpdateBuffered r.id],
        evRow ev ∈ (r :: rest).map Ticket.id := by
      intro ev hev
      simp only [List.nil_append, List.mem_cons, List.not_mem_nil,
        or_false] at hev
      rcases hev with rfl | rfl <;> simp [evRow]
    constructor
    · intro evs hok ev hev
      cases hfu : deliv.fetchUser r.id with
      | fail => simp [processRows, hfu] at hok
      | ok =>
        cases han : deliv.authorSend r.id with
        | ok =>
          cases hno : deliv.notify r.id with
          | fail => simp [processRows, hfu, han, hno] at hok
          | ok =>
            cases hrec : processRows deliv rest with
            | error evs' => simp [processRows, hfu, han, hno, hrec] at hok
            | ok evs' =>
              simp only [processRows, hfu, han, hno, hrec,
                Except.ok.injEq] at hok
              rw [← hok] at hev
              rcases List.mem_append.mp hev with h1 | h2
              · exact hmem ev h1
              · have := ih.1 evs' hrec ev h2
                simp only [List.map_cons, List.mem_cons]
                exact Or.inr this
        | fail =>
          cases hno : deliv.notify r.id with
          | fail => simp [processRows, hfu, han, hno] at hok
          | ok =>
            cases hrec : processRows deliv rest with
            | error evs' => simp [processRows, hfu, han, hno, hrec] at hok
            | ok evs' =>
              simp only [processRows, hfu, han, hno, hrec,
                Except.ok.injEq] at hok
              rw [← hok] at hev
              rcases List.mem_append.mp hev with h1 | h2
              · exact hmem' ev h1
              · have := ih.1 evs' hrec ev h2
                simp only [List.map_cons, List.mem_cons]
                exact Or.inr this
    · intro evs herr ev hev
      cases hfu : deliv.fetchUser r.id with
      | fail =>
        simp only [processRows, hfu, Except.error.injEq] at herr
        rw [← herr] at hev
        exact absurd hev (by simp)
      | ok =>
        cases han : deliv.authorSend r.id with
        | ok =>
          cases hno : deliv.notify r.id with
          | fail =>
            simp only [processRows, hfu, han, hno, Except.error.injEq] at herr
            rw [← herr] at hev
            simp only [List.mem_singleton] at hev
            subst hev
            simp [evRow]
          | ok =>
            cases hrec : processRows deliv rest with
            | ok evs' => simp [processRows, hfu, han, hno, hrec] at herr
            | error evs' =>
              simp only [processRows, hfu, han, hno, hrec,
                Except.error.injEq] at herr
              rw [← herr] at hev
              rcases List.mem_append.mp hev with h1 | h2
              · exact hmem ev h1
              · have := ih.2 evs' hrec ev h2
                simp only [List.map_cons, List.mem_cons]
                exact Or.inr this
        | fail =>
          cases hno : deliv.notify r.id with
          | fail =>
            simp only [processRows, hfu, han, hno, Except.error.injEq] at herr
            rw [← herr] at hev
            exact absurd hev (by simp)
          | ok =>
            cases hrec : processRows deliv rest with
            | ok evs' => simp [processRows, hfu, han, hno, hrec] at herr
            | error evs' =>
              simp only [processRows, hfu, han, hno, hrec,
                Except.error.injEq] at herr
              rw [← herr] at hev
              rcases List.mem_append.mp hev with h1 | h2
              · exact hmem' ev h1
              · have := ih.2 evs' hrec ev h2
                simp only [List.map_cons, List.mem_cons]
                exact Or.inr this

/-- The event block one row contributes to a finished pass: the author
notification (when `author.send` succeeded), then the channel announcement,
then the buffered `reminded_at` update. -/
def rowTrace (deliv : Delivery) (rid : Nat) : List Ev :=
  (match deliv.authorSend rid with
   | .ok => [Ev.authorNotified rid]
   | .fail => []) ++
  [Ev.channelAnnounced rid, Ev.rowUpdateBuffered rid]

/-- A finished scan's trace is the concatenation of the per-row blocks, in
scan order. -/
theorem processRows_ok_trace (deliv : Delivery) :
    ∀ (rows : List Ticket) (evs : List Ev),
    processRows deliv rows = .ok evs →
    evs = rows.flatMap (fun t => rowTrace deliv t.id)
  | [], evs => by
    intro hok
    simp only [processRows, Except.ok.injEq] at hok
    simp [← hok]
  | r :: rest, evs => by
    intro hok
    cases hfu : deliv.fetchUser r.id with
    | fail => simp [processRows, hfu] at hok
    | ok =>
      cases hno : deliv.notify r.id with
      | fail =>
        cases han : deliv.authorSend r.id with
        | ok => simp [processRows, hfu, han, hno] at hok
        | fail => simp [processRows, hfu, han, hno] at hok
      | ok =>
        cases hrec : processRows deliv rest with
        | error evs' =>
          cases han : deliv.authorSend r.id with
          | ok => simp [processRows, hfu, han, hno, hrec] at hok
          | fail => simp [processRows, hfu, han, hno, hrec] at hok
        | ok evs' =>
          have ihe := processRows_ok_trace deliv rest evs' hrec
          cases han : deliv.authorSend r.id with
          | ok =>
            simp only [processRows, hfu, han, hno, hrec,
              Except.ok.injEq] at hok
            rw [← hok, ihe]
            simp [rowTrace, han]
          | fail =>
            simp only [processRows, hfu, han, hno, hrec,
              Except.ok.injEq] at hok
            rw [← hok, ihe]
            simp [rowTrace, han]

/-- When author lookup and channel announcement never fail, the scan
finishes, whatever `author.send` does. -/
theorem processRows_ok_of_good (deliv : Delivery)
    (hd : ∀ r, deliv.fetchUser r = .ok ∧ deliv.notify r = .ok) :
    ∀ (rows : List Ticket),
    processRows deliv rows =
      .ok (rows.flatMap (fun t => rowTrace deliv t.id))
  | [] => by simp [processRows]
  | r :: rest => by
    have ihe := processRows_ok_of_good deliv hd rest
    cases han : deliv.authorSend r.id with
    | ok =>
      simp only [processRows, (hd r.id).1, (hd r.id).2, han, ihe]
      simp [rowTrace, han]
    | fail =>
      simp only [processRows, (hd r.id).1, (hd r.id).2, han, ihe]
      simp [rowTrace, han]

/-- Rows eligible at scan time exist in the table. -/
theorem eligible_isSome (db : DB) (cutoff : Int) (t : Ticket)
    (ht : t ∈ listReminderEligible db cutoff) :
    (fetch_request db t.id).isSome = true := by
  rw [fetch_request, List.find?_isSome]
  exact ⟨t, (List.mem_filter.mp ht).1, by simp⟩

/-- A finished pass marks every row that was eligible at scan time. -/
theorem reminderPass_ok_marks (db : DB) (cutoff now : Int) (deliv : Delivery)
    (db' : DB) (evs : List Ev)
    (hok : reminderPass db cutoff now deliv = .ok (db', evs)) :
    evs = (listReminderEligible db cutoff).flatMap
      (fun t => rowTrace deliv t.id) ∧
    db' = commitWrites db now evs ∧
    ∀ t ∈ listReminderEligible db cutoff, reminded_of db' t.id = some now := by
  unfold reminderPass at hok
  cases hp : processRows deliv (listReminderEligible db cutoff) with
  | error evs' => rw [hp] at hok; exact absurd hok (by simp)
  | ok evs' =>
    rw [hp] at hok
    simp only [Except.ok.injEq, Prod.mk.injEq] at hok
    obtain ⟨hdb, hevs⟩ := hok
    subst hevs
    have htr := processRows_ok_trace deliv _ evs' hp
    refine ⟨htr, hdb.symm, ?_⟩
    intro t ht
    rw [← hdb]
    have hin : Ev.rowUpdateBuffered t.id ∈ evs' := by
      rw [htr]
      rw [List.mem_flatMap]
      refine ⟨t, ht, ?_⟩
      unfold rowTrace
      cases deliv.authorSend t.id <;> simp
    exact (commitWrites_spec now t.id evs' db).2.2.2 hin (eligible_isSome db cutoff t ht)

/-- An aborted pass rolls back: the state is unchanged. -/
theorem reminderPass_error_rollback (db : DB) (cutoff now : Int)
    (deliv : Delivery) (db' : DB) (evs : List Ev)
    (herr : reminderPass db cutoff now deliv = .error (db', evs)) :
    db' = db ∧
    ∀ ev ∈ evs, evRow ev ∈ (listReminderEligible db cutoff).map Ticket.id := by
  unfold reminderPass at herr
  cases hp : processRows deliv (listReminderEligible db cutoff) with
  | ok evs' => rw [hp] at herr; exact absurd herr (by simp)
  | error evs' =>
    rw [hp] at herr
    simp only [Except.error.injEq, Prod.mk.injEq] at herr
    obtain ⟨hdb, hevs⟩ := herr
    subst hevs
    exact ⟨hdb.symm, (processRows_sub deliv _).2 evs' hp⟩

/-- A pass never touches the `reminded_at` of a row that was not eligible at
scan time (in particular of any row claimed at scan time or already
reminded), and it preserves well-formedness. -/
theorem reminderPass_untouched (db : DB) (cutoff now : Int) (deliv : Delivery)
    (rid : Nat)
    (hne : ∀ t ∈ listReminderEligible db cutoff, t.id ≠ rid) :
    reminded_of (passResultDB (reminderPass db cutoff now deliv)) rid =
      reminded_of db rid := by
  unfold reminderPass
  cases hp : processRows deliv (listReminderEligible db cutoff) with
  | error evs' => rfl
  | ok evs' =>
    simp only [passResultDB]
    have hni : Ev.rowUpdateBuffered rid ∉ evs' := by
      intro hmem
      have := (processRows_sub deliv _).1 evs' hp _ hmem
      simp only [evRow, List.mem_map] at this
      obtain ⟨t, ht, hid⟩ := this
      exact hne t ht hid
    have := (commitWrites_spec now rid evs' db).2.2.1 hni
    simp only [reminded_of, this]

theorem reminderPass_nodup (db : DB) (cutoff now : Int) (deliv : Delivery)
    (h : db.NodupIds) :
    DB.NodupIds (passResultDB (reminderPass db cutoff now deliv)) := by
  unfold reminderPass
  cases hp : processRows deliv (listReminderEligible db cutoff) with
  | error evs' => exact h
  | ok evs' => exact commitWrites_nodup now evs' db h

theorem eligible_row_iff (cutoff : Int) (t : Ticket) :
    eligible_row cutoff t = true ↔
      (t.claimed_by = none ∧ t.created_at < cutoff ∧ t.reminded_at = none) := by
  simp [eligible_row, Option.isNone_iff_eq_none, and_assoc]

/-- If every row the fetch could return is ineligible, no eligible row has
the given id. -/
theorem eligible_ne_of_fetch (db : DB) (cutoff : Int) (rid : Nat)
    (h : db.NodupIds)
    (hx : ∀ t, fetch_request db rid = some t → eligible_row cutoff t = false) :
    ∀ t ∈ listReminderEligible db cutoff, t.id ≠ rid := by
  intro t ht heq
  have htm := List.mem_filter.mp ht
  have hfe : fetch_request db t.id = some t :=
    fetch_request_eq_of_mem db t h htm.1
  rw [heq] at hfe
  have := hx t hfe
  rw [htm.2] at this
  exact absurd this (by simp)

/-- `reminded_at`, once set, survives every later scheduler pass. -/
theorem reminderLoop_frozen :
    ∀ (passes : List PassInput) (db : DB) (rid : Nat) (v : Int),
    db.NodupIds → reminded_of db rid = some v →
    reminded_of (reminderLoop db passes).1 rid = some v
  | [], _, _, _, _, hv => hv
  | p :: rest, db, rid, v, h, hv => by
    have hne : ∀ t ∈ listReminderEligible db p.cutoff, t.id ≠ rid := by
      apply eligible_ne_of_fetch db p.cutoff rid h
      intro t hfe
      cases he : eligible_row p.cutoff t with
      | false => rfl
      | true =>
        have := (eligible_row_iff p.cutoff t).mp he
        have hrv : reminded_of db rid = t.reminded_at := by
          simp [reminded_of, hfe]
        rw [hv, this.2.2] at hrv
        exact absurd hrv (by simp)
    have hun := reminderPass_untouched db p.cutoff p.now p.deliv rid hne
    have hnd := reminderPass_nodup db p.cutoff p.now p.deliv h
    unfold reminderLoop
    cases hp : reminderPass db p.cutoff p.now p.deliv with
    | error s =>
      rw [hp] at hun
      simp only [passResultDB] at hun
      simpa [hun] using hv
    | ok s =>
      rw [hp] at hun hnd
      simp only [passResultDB] at hun hnd
      exact reminderLoop_frozen rest s.1 rid v hnd (by rw [hun]; exact hv)

/-- C4: each scheduler pass selects exactly the unclaimed, sufficiently old,
not-yet-reminded rows; a `reminded_at` value, once written, survives every
later pass (so the transition absent-to-set happens at most once and a
reminded ticket is never selected again); and a ticket that is claimed at
scan time is not selected and its `reminded_at` is untouched by the pass. -/
theorem reminder_eligibility_and_at_most_once (db : DB) (cutoff : Int) :
    (∀ t, t ∈ listReminderEligible db cutoff ↔
      (t ∈ db.requests ∧ t.claimed_by = none ∧ t.created_at < cutoff ∧
       t.reminded_at = none)) ∧
    (∀ (passes : List PassInput) (rid : Nat) (v : Int), db.NodupIds →
      reminded_of db rid = some v →
      reminded_of (reminderLoop db passes).1 rid = some v) ∧
    (∀ (now : Int) (deliv : Delivery) (rid : Nat) (w : Int), db.NodupIds →
      claimed_by_of db rid = some w →
      (∀ t ∈ listReminderEligible db cutoff, t.id ≠ rid) ∧
      reminded_of (passResultDB (reminderPass db cutoff now deliv)) rid =
        reminded_of db rid) := by
  refine ⟨?_, ?_, ?_⟩
  · intro t
    rw [listReminderEligible, List.mem_filter, eligible_row_iff]
  · intro passes rid v h hv
    exact reminderLoop_frozen passes db rid v h hv
  · intro now deliv rid w h hw
    have hne : ∀ t ∈ listReminderEligible db cutoff, t.id ≠ rid := by
      apply eligible_ne_of_fetch db cutoff rid h
      intro t hfe
      cases he : eligible_row cutoff t with
      | false => rfl
      | true =>
        have := (eligible_row_iff cutoff t).mp he
        have hcv : claimed_by_of db rid = t.claimed_by := by
          simp [claimed_by_of, hfe]
        rw [hw, this.1] at hcv
        exact absurd hcv (by simp)
    exact ⟨hne, reminderPass_untouched db cutoff now deliv rid hne⟩

/-- Concrete state for exercising C4: row 1 already reminded at 7, row 2
claimed, row 3 eligible. -/
def dbC4 : DB :=
  { requests :=
      [{ id := 1, author_id := 41, text := "a", created_at := 0,
         claimed_by := none, claimed_at := none, reminded_at := some 7,
         message_id := none },
       { id := 2, author_id := 42, text := "b", created_at := 0,
         claimed_by := some 9, claimed_at := some 3, reminded_at := none,
         message_id := none },
       { id := 3, author_id := 43, text := "c", created_at := 0,
         claimed_by := none, claimed_at := none, reminded_at := none,
         message_id := none }],
    oversighters := [], ping_subscribers := [] }

/-- All-ok delivery outcomes. -/
def delivOkC4 : Delivery :=
  { fetchUser := fun _ => .ok, authorSend := fun _ => .ok,
    notify := fun _ => .ok }

theorem reminder_eligibility_and_at_most_once_witness :
    reminded_of (reminderLoop dbC4
      [⟨10, 20, delivOkC4⟩, ⟨30, 40, delivOkC4⟩]).1 1 = some 7 ∧
    reminded_of (passResultDB (reminderPass dbC4 10 20 delivOkC4)) 2 =
      reminded_of dbC4 2 :=
  ⟨(reminder_eligibility_and_at_most_once dbC4 10).2.1
      [⟨10, 20, delivOkC4⟩, ⟨30, 40, delivOkC4⟩] 1 7
      (by unfold DB.NodupIds; decide) (by decide),
   ((reminder_eligibility_and_at_most_once dbC4 10).2.2 20 delivOkC4 2 9
      (by unfold DB.NodupIds; decide) (by decide)).2⟩

/-- With author lookup and channel announcement never failing, every pass of
the loop finishes, whatever `author.send` does. -/
theorem reminderLoop_all_good :
    ∀ (passes : List PassInput) (db : DB),
    (∀ p ∈ passes, ∀ r, p.deliv.fetchUser r = .ok ∧ p.deliv.notify r = .ok) →
    (reminderLoop db passes).2.2 = false ∧
    (reminderLoop db passes).2.1.length = passes.length
  | [], _, _ => ⟨rfl, rfl⟩
  | p :: rest, db, hall => by
    have hp := processRows_ok_of_good p.deliv
      (hall p (List.mem_cons_self p rest))
      (listReminderEligible db p.cutoff)
    have hpass : reminderPass db p.cutoff p.now p.deliv =
        .ok (commitWrites db p.now
              ((listReminderEligible db p.cutoff).flatMap
                (fun t => rowTrace p.deliv t.id)),
             (listReminderEligible db p.cutoff).flatMap
                (fun t => rowTrace p.deliv t.id)) := by
      unfold reminderPass
      rw [hp]
    have ih := reminderLoop_all_good rest
      (commitWrites db p.now
        ((listReminderEligible db p.cutoff).flatMap
          (fun t => rowTrace p.deliv t.id)))
      (fun q hq => hall q (List.mem_cons_of_mem p hq))
    unfold reminderLoop
    rw [hpass]
    exact ⟨ih.1, by simp [ih.2]⟩

/-- C3 (amended): an `HTTPException` from the author-notification send is
caught and suppressed per ticket, so with author lookup and channel
announcement succeeding the whole pass finishes — every eligible ticket is
processed and marked reminded regardless of `author.send` outcomes — and a
loop of such passes runs them all; but this is the only tolerated failure:
the code has no per-pass exception handler, so any other error aborts the
scan and kills the loop task. -/
theorem reminder_pass_fault_tolerance (db : DB) (cutoff now : Int) :
    (∀ deliv : Delivery,
      (∀ r, deliv.fetchUser r = .ok ∧ deliv.notify r = .ok) →
      reminderPass db cutoff now deliv =
        .ok (commitWrites db now
              ((listReminderEligible db cutoff).flatMap
                (fun t => rowTrace deliv t.id)),
             (listReminderEligible db cutoff).flatMap
                (fun t => rowTrace deliv t.id)) ∧
      ∀ t ∈ listReminderEligible db cutoff,
        reminded_of (passResultDB (reminderPass db cutoff now deliv)) t.id =
          some now) ∧
    (∀ passes : List PassInput,
      (∀ p ∈ passes, ∀ r, p.deliv.fetchUser r = .ok ∧ p.deliv.notify r = .ok) →
      (reminderLoop db passes).2.2 = false ∧
      (reminderLoop db passes).2.1.length = passes.length) := by
  constructor
  · intro deliv hd
    have hpass : reminderPass db cutoff now deliv =
        .ok (commitWrites db now
              ((listReminderEligible db cutoff).flatMap
                (fun t => rowTrace deliv t.id)),
             (listReminderEligible db cutoff).flatMap
                (fun t => rowTrace deliv t.id)) := by
      unfold reminderPass
      rw [processRows_ok_of_good deliv hd]
    refine ⟨hpass, ?_⟩
    intro t ht
    have := (reminderPass_ok_marks db cutoff now deliv _ _ hpass).2.2 t ht
    rw [hpass]
    simpa [passResultDB] using this
  · intro passes hall
    exact reminderLoop_all_good passes db hall

/-- Concrete state for exercising C3: rows 1 and 2 both reminder-eligible at
cutoff 10. -/
def dbC3 : DB :=
  { requests :=
      [{ id := 1, author_id := 41, text := "a", created_at := 0,
         claimed_by := none, claimed_at := none, reminded_at := none,
         message_id := none },
       { id := 2, author_id := 42, text := "b", created_at := 0,
         claimed_by := none, claimed_at := none, reminded_at := none,
         message_id := none }],
    oversighters := [], ping_subscribers := [] }

/-- Author lookup (`bot.fetch_user`) fails for row 1's author; everything
else succeeds. -/
def delivC3bad : Delivery :=
  { fetchUser := fun r => if r == 1 then .fail else .ok,
    authorSend := fun _ => .ok, notify := fun _ => .ok }

/-- All external calls succeed. -/
def delivC3ok : Delivery :=
  { fetchUser := fun _ => .ok, authorSend := fun _ => .ok,
    notify := fun _ => .ok }

/-- `author.send` fails for row 1's author; everything else succeeds. -/
def delivC3dm : Delivery :=
  { fetchUser := fun _ => .ok,
    authorSend := fun r => if r == 1 then .fail else .ok,
    notify := fun _ => .ok }

/-- C3 (refuted as stated): rows 1 and 2 are both eligible, but an
unreachable recipient makes `bot.fetch_user` raise on row 1 — outside the
`try` block — so the pass aborts before row 2 is processed, nothing is
marked reminded, and the uncaught exception terminates the loop: the second
scheduled pass never runs. -/
theorem reminder_loop_error_terminates :
    (listReminderEligible dbC3 10).map Ticket.id = [1, 2] ∧
    reminderLoop dbC3 [⟨10, 20, delivC3bad⟩, ⟨10, 80, delivC3ok⟩] =
      (dbC3, [[]], true) ∧
    reminded_of dbC3 2 = none := by
  decide

/-- The first row of `dbC3`, whose author DM fails under `delivC3dm`. -/
def ticketC3a : Ticket :=
  { id := 1, author_id := 41, text := "a", created_at := 0,
    claimed_by := none, claimed_at := none, reminded_at := none,
    message_id := none }

theorem reminder_pass_fault_tolerance_witness :
    reminded_of (passResultDB (reminderPass dbC3 10 20 delivC3dm))
      ticketC3a.id = some 20 ∧
    (reminderLoop dbC3 [⟨10, 20, delivC3dm⟩]).2.2 = false :=
  ⟨((reminder_pass_fault_tolerance dbC3 10 20).1 delivC3dm
      (fun r => ⟨rfl, rfl⟩)).2 ticketC3a (by decide),
   ((reminder_pass_fault_tolerance dbC3 10 20).2 [⟨10, 20, delivC3dm⟩]
      (by
        intro p hp
        rw [List.mem_singleton] at hp
        subst hp
        exact fun r => ⟨rfl, rfl⟩)).1⟩

/-- C10: during a pass each eligible ticket's author notification and channel
announcement precede its buffered `reminded_at` update (the per-row block
`rowTrace` lists the update last), all buffered updates are applied by the
single commit after the scan; and if the pass raises before that commit the
state rolls back unchanged, so every ticket announced during the aborted
pass is still reminder-eligible afterwards. -/
theorem reminder_pass_commit_boundary (db : DB) (cutoff now : Int)
    (deliv : Delivery) :
    (∀ db' evs, reminderPass db cutoff now deliv = .ok (db', evs) →
      evs = (listReminderEligible db cutoff).flatMap
        (fun t => rowTrace deliv t.id) ∧
      db' = commitWrites db now evs ∧
      ∀ t ∈ listReminderEligible db cutoff,
        reminded_of db' t.id = some now) ∧
    (∀ db' evs, reminderPass db cutoff now deliv = .error (db', evs) →
      db' = db ∧
      ∀ r, Ev.channelAnnounced r ∈ evs →
        ∃ t ∈ listReminderEligible db' cutoff, t.id = r) := by
  constructor
  · intro db' evs hok
    exact reminderPass_ok_marks db cutoff now deliv db' evs hok
  · intro db' evs herr
    obtain ⟨hdb, hsub⟩ :=
      reminderPass_error_rollback db cutoff now deliv db' evs herr
    subst hdb
    refine ⟨rfl, ?_⟩
    intro r hr
    have := hsub _ hr
    simp only [evRow, List.mem_map] at this
    obtain ⟨t, ht, hid⟩ := this
    exact ⟨t, ht, hid⟩

/-- Channel announcement (`notify_restricted`) fails for row 2; everything
else succeeds: the pass announces row 1, then aborts at row 2. -/
def delivC10 : Delivery :=
  { fetchUser := fun _ => .ok, authorSend := fun _ => .ok,
    notify := fun r => if r == 2 then .fail else .ok }

theorem reminder_pass_commit_boundary_witness :
    1 ∈ (listReminderEligible dbC3 10).map Ticket.id := by
  have h := (reminder_pass_commit_boundary dbC3 10 20 delivC10).2 dbC3
    [Ev.authorNotified 1, Ev.channelAnnounced 1,
     Ev.rowUpdateBuffered 1, Ev.authorNotified 2]
    (by rfl)
  obtain ⟨t, ht, hid⟩ := h.2 1 (by decide)
  exact List.mem_map.mpr ⟨t, ht, hid⟩

/-! ## Bulk claim (C7) -/

/-- Messages reporting a per-ticket failure outcome of `/claim`. -/
def isFailureMsg : Msg → Bool
  | .unknownTicket => true
  | .invalidId => true
  | .alreadyClaimed _ => true
  | _ => false

/-- Interference performed by tasks other than the bulk-claiming reviewer:
any submission, and claims by real (nonzero) users other than the
requester. -/
def eventOk (uid : Int) : Event → Prop
  | .create _ _ _ => True
  | .rclaim _ u _ => u ≠ uid ∧ u ≠ 0

theorem foldl_max_init_le (l : List Ticket) :
    ∀ a : Nat, a ≤ l.foldl (fun m t => max m t.id) a := by
  induction l with
  | nil => intro a; exact Nat.le_refl a
  | cons b l ih =>
    intro a
    exact le_trans (Nat.le_max_left a b.id) (ih (max a b.id))

theorem foldl_max_mem_le (l : List Ticket) :
    ∀ (a : Nat) (t : Ticket), t ∈ l →
      t.id ≤ l.foldl (fun m t => max m t.id) a := by
  induction l with
  | nil => intro a t ht; exact absurd ht (by simp)
  | cons b l ih =>
    intro a t ht
    rcases List.mem_cons.mp ht with rfl | hm
    · exact le_trans (Nat.le_max_right a t.id) (foldl_max_init_le l _)
    · exact ih (max a b.id) t hm

/-- Freshly assigned rowids are strictly larger than every existing one. -/
theorem next_id_gt (db : DB) (t : Ticket) (ht : t ∈ db.requests) :
    t.id < next_id db :=
  Nat.lt_succ_of_le (foldl_max_mem_le db.requests 0 t ht)

theorem ext_id_to_row_inv (ext : Int) (rid : Nat)
    (h : ext_id_to_row ext = some rid) :
    row_to_ext_id rid = ext ∧ 0 < rid := by
  simp only [ext_id_to_row, ID_OFFSET] at h
  split at h
  · exact absurd h (by simp)
  · rename_i hle
    simp only [Option.some.injEq] at h
    rw [← h]
    simp only [row_to_ext_id, ID_OFFSET]
    omega

/-- External ids resolve to at most one rowid. -/
theorem ext_id_to_row_injective (e1 e2 : Int) (rid : Nat)
    (h1 : ext_id_to_row e1 = some rid) (h2 : ext_id_to_row e2 = some rid) :
    e1 = e2 := by
  rw [← (ext_id_to_row_inv e1 rid h1).1, ← (ext_id_to_row_inv e2 rid h2).1]

theorem claim_request_claimed_other (db : DB) (r : Nat) (u n : Int) (q : Nat)
    (hq : q ≠ r) :
    claimed_by_of (claim_request db r u n).2 q = claimed_by_of db q := by
  simp [claimed_by_of, claim_request_other db r u n q hq]

theorem claim_request_claimed_self (db : DB) (rid : Nat) (u n : Int)
    (t : Ticket) (h : db.NodupIds) (hf : fetch_request db rid = some t)
    (hc : t.claimed_by = none) :
    claimed_by_of (claim_request db rid u n).2 rid = some u := by
  have := (claim_request_succ db rid u n t h hf hc).2
  simp [claimed_by_of, this]

/-- Whoever owns a row after a conditional update either owned it before or
is the updating claimant targeting exactly that row. -/
theorem claim_request_claimed_after (db : DB) (r : Nat) (u n : Int)
    (q : Nat) (w : Int)
    (hw : claimed_by_of (claim_request db r u n).2 q = some w) :
    claimed_by_of db q = some w ∨ (w = u ∧ q = r) := by
  simp only [claimed_by_of, claim_request_fetch_after] at hw
  cases hf : fetch_request db q with
  | none => rw [hf] at hw; exact absurd hw (by simp)
  | some t =>
    rw [hf] at hw
    have hred : Option.bind (Option.map (claim_upd r u n) (some t))
        Ticket.claimed_by = (claim_upd r u n t).claimed_by := rfl
    rw [hred] at hw
    simp only [claimed_by_of, hf, Option.bind_some]
    unfold claim_upd at hw
    split at hw
    · rename_i hhit
      simp only at hw
      right
      refine ⟨by injection hw with h; exact h.symm, ?_⟩
      simp only [claim_hit, Bool.and_eq_true, beq_iff_eq] at hhit
      rw [← (fetch_request_mem hf).2, hhit.1]
    · left
      exact hw

/-- Appending any rows preserves an existing owner. -/
theorem append_claimed_frozen (db : DB) (ts : List Ticket) (q : Nat)
    (w : Int) (os : List Int) (ps : List Int)
    (hw : claimed_by_of db q = some w) :
    claimed_by_of { requests := db.requests ++ ts, oversighters := os,
                    ping_subscribers := ps } q = some w := by
  have hs : (fetch_request db q).isSome := by
    simp only [claimed_by_of] at hw
    cases hf : fetch_request db q with
    | none => rw [hf] at hw; exact absurd hw (by simp)
    | some t => simp
  rw [claimed_by_of, fetch_request_append db q ts os ps hs]
  exact hw

theorem applyEvent_facts (uid : Int) (db : DB) (e : Event)
    (h : db.NodupIds) (he : eventOk uid e) :
    DB.NodupIds (applyEvent db e) ∧
    (∀ q w, claimed_by_of db q = some w →
      claimed_by_of (applyEvent db e) q = some w) ∧
    (∀ q, (fetch_request db q).isSome = true →
      (fetch_request (applyEvent db e) q).isSome = true) ∧
    (∀ q, claimed_by_of (applyEvent db e) q = some uid →
      claimed_by_of db q = some uid) ∧
    (∀ q, (fetch_request db q).isSome = true → claimed_by_of db q = none →
      claimed_by_of (applyEvent db e) q = none ∨
      ∃ u, claimed_by_of (applyEvent db e) q = some u ∧ u ≠ 0 ∧ u ≠ uid) := by
  cases e with
  | create a s ts =>
    refine ⟨?_, ?_, ?_, ?_, ?_⟩
    · simp only [applyEvent, DB.NodupIds, List.map_append, List.map_cons,
        List.map_nil]
      rw [List.nodup_append]
      refine ⟨h, by simp, ?_⟩
      intro x hx
      simp only [List.mem_map] at hx
      obtain ⟨t, ht, hid⟩ := hx
      have := next_id_gt db t ht
      simp only [List.mem_singleton]
      omega
    · intro q w hw
      exact append_claimed_frozen db _ q w _ _ hw
    · intro q hq
      rw [applyEvent]
      rw [fetch_request_append db q _ _ _ hq]
      exact hq
    · intro q hq
      by_cases hs : (fetch_request db q).isSome = true
      · rw [applyEvent, claimed_by_of, fetch_request_append db q _ _ _ hs] at hq
        exact hq
      · exfalso
        have hnone : fetch_request db q = none := by
          cases hf : fetch_request db q with
          | none => rfl
          | some t => rw [hf] at hs; exact absurd hs (by simp)
        rw [applyEvent, claimed_by_of, fetch_request] at hq
        simp only [List.find?_append] at hq
        rw [show db.requests.find? (fun t => t.id == q) = none from hnone] at hq
        simp only [Option.none_or] at hq
        rw [List.find?_singleton] at hq
        split at hq
        · simp only [Option.some_bind] at hq
          exact absurd hq (by simp)
        · exact absurd hq (by simp)
    · intro q hs hn
      left
      rw [applyEvent, claimed_by_of, fetch_request_append db q _ _ _ hs]
      exact hn
  | rclaim r u ts =>
    obtain ⟨hu1, hu2⟩ := he
    refine ⟨?_, ?_, ?_, ?_, ?_⟩
    · exact claim_request_nodup db r u ts h
    · intro q w hw
      exact claim_request_frozen db r u ts q w hw
    · intro q hq
      rw [applyEvent, claim_request_isSome]
      exact hq
    · intro q hq
      rcases claim_request_claimed_after db r u ts q uid hq with h1 | h2
      · exact h1
      · exact absurd h2.1.symm hu1
    · intro q hs hn
      rw [Option.isSome_iff_exists] at hs
      obtain ⟨t, hf⟩ := hs
      have htn : t.claimed_by = none := by
        simp only [claimed_by_of, hf, Option.some_bind] at hn
        exact hn
      by_cases hqr : t.id = r
      · right
        refine ⟨u, ?_, hu2, hu1⟩
        have hhit : claim_hit r t = true := by
          simp [claim_hit, hqr, htn]
        rw [applyEvent, claimed_by_of, claim_request_fetch_after, hf]
        simp [claim_upd, hhit]
      · left
        have hhit : claim_hit r t = false := by
          simp [claim_hit, hqr]
        rw [applyEvent, claimed_by_of, claim_request_fetch_after, hf]
        simp [claim_upd, hhit, htn]

theorem applyEvents_facts (uid : Int) :
    ∀ (evl : List Event) (db : DB),
    db.NodupIds → (∀ e ∈ evl, eventOk uid e) →
    DB.NodupIds (evl.foldl applyEvent db) ∧
    (∀ q w, claimed_by_of db q = some w →
      claimed_by_of (evl.foldl applyEvent db) q = some w) ∧
    (∀ q, (fetch_request db q).isSome = true →
      (fetch_request (evl.foldl applyEvent db) q).isSome = true) ∧
    (∀ q, claimed_by_of (evl.foldl applyEvent db) q = some uid →
      claimed_by_of db q = some uid) ∧
    (∀ q, (fetch_request db q).isSome = true → claimed_by_of db q = none →
      claimed_by_of (evl.foldl applyEvent db) q = none ∨
      ∃ u, claimed_by_of (evl.foldl applyEvent db) q = some u ∧
        u ≠ 0 ∧ u ≠ uid)
  | [], db, h, _ => by
    exact ⟨h, fun _ _ hw => hw, fun _ hq => hq, fun _ hq => hq,
      fun _ _ hn => Or.inl hn⟩
  | e :: evl, db, h, hall => by
    obtain ⟨f1, f2, f3, f4, f5⟩ :=
      applyEvent_facts uid db e h (hall e (List.mem_cons_self e evl))
    obtain ⟨g1, g2, g3, g4, g5⟩ := applyEvents_facts uid evl (applyEvent db e)
      f1 (fun x hx => hall x (List.mem_cons_of_mem e hx))
    refine ⟨g1, ?_, ?_, ?_, ?_⟩
    · intro q w hw
      exact g2 q w (f2 q w hw)
    · intro q hq
      exact g3 q (f3 q hq)
    · intro q hq
      exact f4 q (g4 q hq)
    · intro q hs hn
      rcases f5 q hs hn with h1 | ⟨u, h2, h3, h4⟩
      · exact g5 q (f3 q hs) h1
      · right
        exact ⟨u, g2 q u h2, h3, h4⟩

/-- `_claim_one` with no mid-attempt race on a row that is already claimed
by a real user: the already-claimed outcome, reported only when `first`. -/
theorem claim_one_skip (db : DB) (rid : Nat) (uid now : Int) (first : Bool)
    (t : Ticket) (u : Int)
    (hf : fetch_request db rid = some t) (ht : t.claimed_by = some u)
    (hu : u ≠ 0) :
    claim_one db rid uid now none first =
      (if first then [Msg.alreadyClaimed (some u)] else [], db) := by
  have htr : pyTruthy t.claimed_by = true := by
    rw [ht]
    simp [pyTruthy, hu]
  have hpt : pyTruthy (some u) = true := by simp [pyTruthy, hu]
  simp only [claim_one, hf, htr]
  simp [ht, hpt]

/-- `_claim_one` with no mid-attempt race on an existing unclaimed row: the
atomic claim succeeds and the success reply is always sent. -/
theorem claim_one_succ (db : DB) (rid : Nat) (uid now : Int) (first : Bool)
    (t : Ticket) (h : db.NodupIds)
    (hf : fetch_request db rid = some t) (ht : t.claimed_by = none) :
    claim_one db rid uid now none first =
      ([Msg.claimedOk (row_to_ext_id rid)], (claim_request db rid uid now).2) := by
  have htr : pyTruthy t.claimed_by = false := by
    rw [ht]
    rfl
  have hr1 : (claim_request db rid uid now).1 = true :=
    (claim_request_fst db rid uid now h).mpr ⟨t, hf, ht⟩
  simp only [claim_one, hf, htr]
  simp [hr1]

theorem claim_bulk_go_spec (uid now : Int) (itf : Interference)
    (hmid : ∀ i, itf.mid i = none)
    (hpre : ∀ i, ∀ e ∈ itf.pre i, eventOk uid e) :
    ∀ (exts : List Int) (idx : Nat) (db : DB),
    db.NodupIds →
    (∀ ext ∈ exts, ∃ rid, ext_id_to_row ext = some rid ∧
      (fetch_request db rid).isSome = true ∧
      (claimed_by_of db rid = none ∨
        ∃ u, claimed_by_of db rid = some u ∧ u ≠ 0 ∧ u ≠ uid)) →
    exts.Pairwise (· ≠ ·) →
    DB.NodupIds (claim_bulk_go uid now itf idx exts db).2 ∧
    (∀ q w, claimed_by_of db q = some w →
      claimed_by_of (claim_bulk_go uid now itf idx exts db).2 q = some w) ∧
    (∀ ext ∈ exts, ∀ rid, ext_id_to_row ext = some rid →
      (claimed_by_of (claim_bulk_go uid now itf idx exts db).2 rid).isSome
        = true) ∧
    ((claim_bulk_go uid now itf idx exts db).1.countP isFailureMsg ≤
      if 2 ≤ idx then 0 else 1) ∧
    (∀ ext, Msg.claimedOk ext ∈ (claim_bulk_go uid now itf idx exts db).1 →
      ext ∈ exts) ∧
    (∀ ext ∈ exts, ∀ rid, ext_id_to_row ext = some rid →
      (Msg.claimedOk ext ∈ (claim_bulk_go uid now itf idx exts db).1 ↔
        claimed_by_of (claim_bulk_go uid now itf idx exts db).2 rid
          = some uid)) ∧
    (∀ q, claimed_by_of (claim_bulk_go uid now itf idx exts db).2 q
        = some uid →
      claimed_by_of db q = some uid ∨
        ∃ ext ∈ exts, ext_id_to_row ext = some q)
  | [], idx, db => by
    intro hnd _ _
    refine ⟨hnd, fun _ _ hw => hw, ?_, ?_, ?_, ?_, fun q hq => Or.inl hq⟩
    · intro ext hext
      exact absurd hext (by simp)
    · simp [claim_bulk_go]
    · intro ext hext
      simp [claim_bulk_go] at hext
    · intro ext hext
      exact absurd hext (by simp)
  | ext :: rest, idx, db => by
    intro hnd hexts hdist
    obtain ⟨hne_head, hdist'⟩ := List.pairwise_cons.mp hdist
    obtain ⟨rid, hrow, hsome, hclm⟩ := hexts ext (List.mem_cons_self ext rest)
    set db1 := (itf.pre idx).foldl applyEvent db with hdb1
    obtain ⟨a1, a2, a3, a4, a5⟩ :=
      applyEvents_facts uid (itf.pre idx) db hnd (hpre idx)
    have hsome1 : (fetch_request db1 rid).isSome = true := a3 rid hsome
    have hext_eq : row_to_ext_id rid = ext := (ext_id_to_row_inv ext rid hrow).1
    -- transport the head invariant into db1
    have hclm1 : claimed_by_of db1 rid = none ∨
        ∃ u, claimed_by_of db1 rid = some u ∧ u ≠ 0 ∧ u ≠ uid := by
      rcases hclm with hn | ⟨u, hu, hu0, huu⟩
      · exact a5 rid hsome hn
      · exact Or.inr ⟨u, a2 rid u hu, hu0, huu⟩
    -- the fetched row at db1
    have hsome1' := hsome1
    rw [Option.isSome_iff_exists] at hsome1'
    obtain ⟨t, hft⟩ := hsome1'
    have hgo : claim_bulk_go uid now itf idx (ext :: rest) db =
        ((claim_one db1 rid uid now none (idx == 1)).1 ++
          (claim_bulk_go uid now itf (idx + 1) rest
            (claim_one db1 rid uid now none (idx == 1)).2).1,
         (claim_bulk_go uid now itf (idx + 1) rest
            (claim_one db1 rid uid now none (idx == 1)).2).2) := by
      simp only [claim_bulk_go, ← hdb1, hrow, hmid idx]
    rcases hclm1 with hn1 | ⟨u, hu1, hu0, huu⟩
    · -- the head row is unclaimed when fetched: the claim succeeds
      have htn : t.claimed_by = none := by
        simp only [claimed_by_of, hft, Option.some_bind] at hn1
        exact hn1
      have hco := claim_one_succ db1 rid uid now (idx == 1) t a1 hft htn
      set db2 := (claim_request db1 rid uid now).2 with hdb2
      have hnd2 : db2.NodupIds := claim_request_nodup db1 rid uid now a1
      have hself : claimed_by_of db2 rid = some uid :=
        claim_request_claimed_self db1 rid uid now t a1 hft htn
      -- invariant for the remaining batch at db2
      have hexts2 : ∀ e ∈ rest, ∃ r2, ext_id_to_row e = some r2 ∧
          (fetch_request db2 r2).isSome = true ∧
          (claimed_by_of db2 r2 = none ∨
            ∃ u, claimed_by_of db2 r2 = some u ∧ u ≠ 0 ∧ u ≠ uid) := by
        intro e he
        obtain ⟨r2, hrow2, hsome2, hclm2⟩ :=
          hexts e (List.mem_cons_of_mem ext he)
        have hner : r2 ≠ rid := by
          intro heq
          rw [heq] at hrow2
          exact hne_head e he (ext_id_to_row_injective ext e rid hrow hrow2)
        have hco2 : claimed_by_of db2 r2 = claimed_by_of db1 r2 := by
          rw [hdb2]
          exact claim_request_claimed_other db1 rid uid now r2 hner
        refine ⟨r2, hrow2, ?_, ?_⟩
        · rw [hdb2, claim_request_isSome]
          exact a3 r2 hsome2
        · rw [hco2]
          rcases hclm2 with hn | ⟨u, hu, hu0, huu⟩
          · exact a5 r2 hsome2 hn
          · exact Or.inr ⟨u, a2 r2 u hu, hu0, huu⟩
      obtain ⟨g1, g2, g3, g4, g5, g6, g7⟩ := claim_bulk_go_spec uid now itf
        hmid hpre rest (idx + 1) db2 hnd2 hexts2 hdist'
      have hfrozen1 : ∀ q w, claimed_by_of db q = some w →
          claimed_by_of db2 q = some w := by
        intro q w hw
        rw [hdb2]
        exact claim_request_frozen db1 rid uid now q w (a2 q w hw)
      rw [hgo, hco]
      simp only [hext_eq]
      refine ⟨g1, ?_, ?_, ?_, ?_, ?_, ?_⟩
      · intro q w hw
        exact g2 q w (hfrozen1 q w hw)
      · intro e he r2 hrow2
        rcases List.mem_cons.mp he with rfl | he'
        · have : r2 = rid := by
            rw [hrow] at hrow2
            exact (Option.some.inj hrow2).symm
          subst this
          rw [g2 r2 uid hself]
          rfl
        · exact g3 e he' r2 hrow2
      · rw [List.countP_append]
        have h0 : List.countP isFailureMsg [Msg.claimedOk ext] = 0 := by
          simp [isFailureMsg]
        rw [h0]
        by_cases h2 : 2 ≤ idx
        · have h3 : 2 ≤ idx + 1 := by omega
          simp only [h2, if_true, h3] at g4 ⊢
          omega
        · by_cases h1 : idx = 1
          · subst h1
            simp only [show (2 ≤ 2) = True by simp, if_true] at g4
            simp only [h2, if_false]
            omega
          · have h3 : ¬ 2 ≤ idx + 1 := by omega
            simp only [h3, if_false] at g4
            simp only [h2, if_false]
            omega
      · intro e he
        rcases List.mem_cons.mp he with heq | he'
        · rw [Msg.claimedOk.injEq] at heq
          rw [heq]
          exact List.mem_cons_self ext rest
        · exact List.mem_cons_of_mem ext (g5 e he')
      · intro e he r2 hrow2
        rcases List.mem_cons.mp he with rfl | he'
        · have : r2 = rid := by
            rw [hrow] at hrow2
            exact (Option.some.inj hrow2).symm
          subst this
          constructor
          · intro _
            exact g2 r2 uid hself
          · intro _
            exact List.mem_cons_self _ _
        · have hnee : e ≠ ext := fun heq => hne_head e he' heq.symm
          have htrans : Msg.claimedOk e ∈ Msg.claimedOk ext ::
              (claim_bulk_go uid now itf (idx + 1) rest db2).1 ↔
              Msg.claimedOk e ∈
                (claim_bulk_go uid now itf (idx + 1) rest db2).1 := by
            simp [hnee]
          rw [List.singleton_append, htrans]
          exact g6 e he' r2 hrow2
      · intro q hq
        rcases g7 q hq with hq2 | ⟨e, he, hrow2⟩
        · rcases claim_request_claimed_after db1 rid uid now q uid hq2
            with hq1 | ⟨_, hqr⟩
          · rcases a4 q hq1 with hq0
            exact Or.inl hq0
          · subst hqr
            exact Or.inr ⟨ext, List.mem_cons_self ext rest, hrow⟩
        · exact Or.inr ⟨e, List.mem_cons_of_mem ext he, hrow2⟩
    · -- the head row is already claimed by a real other user: skip
      have htu : t.claimed_by = some u := by
        simp only [claimed_by_of, hft, Option.some_bind] at hu1
        exact hu1
      have hco := claim_one_skip db1 rid uid now (idx == 1) t u hft htu hu0
      have hexts1 : ∀ e ∈ rest, ∃ r2, ext_id_to_row e = some r2 ∧
          (fetch_request db1 r2).isSome = true ∧
          (claimed_by_of db1 r2 = none ∨
            ∃ u, claimed_by_of db1 r2 = some u ∧ u ≠ 0 ∧ u ≠ uid) := by
        intro e he
        obtain ⟨r2, hrow2, hsome2, hclm2⟩ :=
          hexts e (List.mem_cons_of_mem ext he)
        refine ⟨r2, hrow2, a3 r2 hsome2, ?_⟩
        rcases hclm2 with hn | ⟨u, hu, hu0', huu'⟩
        · exact a5 r2 hsome2 hn
        · exact Or.inr ⟨u, a2 r2 u hu, hu0', huu'⟩
      obtain ⟨g1, g2, g3, g4, g5, g6, g7⟩ := claim_bulk_go_spec uid now itf
        hmid hpre rest (idx + 1) db1 a1 hexts1 hdist'
      rw [hgo, hco]
      refine ⟨g1, ?_, ?_, ?_, ?_, ?_, ?_⟩
      · intro q w hw
        exact g2 q w (a2 q w hw)
      · intro e he r2 hrow2
        rcases List.mem_cons.mp he with rfl | he'
        · have : r2 = rid := by
            rw [hrow] at hrow2
            exact (Option.some.inj hrow2).symm
          subst this
          rw [g2 r2 u hu1]
          rfl
        · exact g3 e he' r2 hrow2
      · rw [List.countP_append]
        have hours : List.countP isFailureMsg
            (if (idx == 1) = true then [Msg.alreadyClaimed (some u)]
             else []) = if idx = 1 then 1 else 0 := by
          by_cases h1 : idx = 1
          · subst h1
            simp [isFailureMsg]
          · simp [h1]
        have hsnd : ((if (idx == 1) = true then [Msg.alreadyClaimed (some u)]
            else [], db1) : List Msg × DB).2 = db1 := rfl
        rw [hours, hsnd]
        by_cases h2 : 2 ≤ idx
        · have h1 : idx ≠ 1 := by omega
          have h3 : 2 ≤ idx + 1 := by omega
          rw [if_pos h3] at g4
          rw [if_neg h1, if_pos h2]
          omega
        · by_cases h1 : idx = 1
          · have h3 : 2 ≤ idx + 1 := by omega
            rw [if_pos h3] at g4
            rw [if_pos h1, if_neg h2]
            omega
          · have h3 : ¬ 2 ≤ idx + 1 := by omega
            rw [if_neg h3] at g4
            rw [if_neg h1, if_neg h2]
            omega
      · intro e he
        rw [List.mem_append] at he
        rcases he with he' | he'
        · exfalso
          by_cases h1 : (idx == 1) = true
          · rw [if_pos h1] at he'
            simp at he'
          · rw [if_neg h1] at he'
            simp at he'
        · exact List.mem_cons_of_mem ext (g5 e he')
      · intro e he r2 hrow2
        have hnotin : ∀ e', Msg.claimedOk e' ∉
            (if (idx == 1) = true then [Msg.alreadyClaimed (some u)]
             else []) := by
          intro e' he'
          by_cases h1 : (idx == 1) = true
          · rw [if_pos h1] at he'
            simp at he'
          · rw [if_neg h1] at he'
            simp at he'
        have htrans : ∀ e', (Msg.claimedOk e' ∈
            (if (idx == 1) = true then [Msg.alreadyClaimed (some u)]
             else []) ++
              (claim_bulk_go uid now itf (idx + 1) rest db1).1 ↔
            Msg.claimedOk e' ∈
              (claim_bulk_go uid now itf (idx + 1) rest db1).1) := by
          intro e'
          rw [List.mem_append]
          constructor
          · intro hx
            rcases hx with hx | hx
            · exact absurd hx (hnotin e')
            · exact hx
          · exact Or.inr
        rcases List.mem_cons.mp he with rfl | he'
        · have : r2 = rid := by
            rw [hrow] at hrow2
            exact (Option.some.inj hrow2).symm
          subst this
          rw [htrans e]
          constructor
          · intro hx
            exact absurd (g5 e hx)
              (by intro hmem; exact hne_head e hmem rfl)
          · intro hx
            exfalso
            rw [g2 r2 u hu1] at hx
            exact huu (Option.some.inj hx)
        · rw [htrans e]
          exact g6 e he' r2 hrow2
      · intro q hq
        rcases g7 q hq with hq1 | ⟨e, he, hrow2⟩
        · exact Or.inl (a4 q hq1)
        · exact Or.inr ⟨e, List.mem_cons_of_mem ext he, hrow2⟩

/-- C7: the bulk claim operates on the `list_pending()` snapshot taken at the
start of the call, in ascending-id order; tickets that were not in the
snapshot (in particular tickets created during the batch) are never claimed
by the requester; an already-claimed outcome on one ticket does not abort
the batch — every snapshotted ticket still ends up claimed by someone — the
failure reply is sent at most once (only for the first ticket of the batch),
and a success reply for a snapshotted ticket is sent exactly when the
requester ends up owning it. -/
theorem claim_bulk_spec (db : DB) (user_id now : Int) (itf : Interference)
    (hs : db.SortedById) (hpos : ∀ t ∈ db.requests, 0 < t.id)
    (hmid : ∀ i, itf.mid i = none)
    (hpre : ∀ i, ∀ e ∈ itf.pre i, eventOk user_id e) :
    List.Pairwise (· < ·) (list_pending db) ∧
    (∀ ext ∈ list_pending db, ∀ rid, ext_id_to_row ext = some rid →
      (claimed_by_of (claim_bulk db user_id now itf).2 rid).isSome = true) ∧
    (∀ q, claimed_by_of (claim_bulk db user_id now itf).2 q = some user_id →
      claimed_by_of db q = some user_id ∨
        ∃ ext ∈ list_pending db, ext_id_to_row ext = some q) ∧
    (claim_bulk db user_id now itf).1.countP isFailureMsg ≤ 1 ∧
    (∀ ext ∈ list_pending db, ∀ rid, ext_id_to_row ext = some rid →
      (Msg.claimedOk ext ∈ (claim_bulk db user_id now itf).1 ↔
        claimed_by_of (claim_bulk db user_id now itf).2 rid
          = some user_id)) := by
  have hnd := sortedById_nodupIds db hs
  have hsorted : List.Pairwise (· < ·) (list_pending db) :=
    (list_pending_chars db hs).2.2
  by_cases hemp : (list_pending db).isEmpty = true
  · have hbulk : claim_bulk db user_id now itf = ([Msg.noUnclaimed], db) := by
      simp only [claim_bulk, hemp]
      rfl
    have hnil : list_pending db = [] := List.isEmpty_iff.mp hemp
    rw [hbulk, hnil]
    refine ⟨by rw [← hnil]; exact hsorted, ?_, ?_, ?_, ?_⟩
    · intro ext hext
      exact absurd hext (by simp)
    · intro q hq
      exact Or.inl hq
    · simp [isFailureMsg]
    · intro ext hext
      exact absurd hext (by simp)
  · have hbulk : claim_bulk db user_id now itf =
        (Msg.claimingMultiple (list_pending db).length ::
          (claim_bulk_go user_id now itf 1 (list_pending db) db).1,
         (claim_bulk_go user_id now itf 1 (list_pending db) db).2) := by
      simp only [claim_bulk, hemp]
      rfl
    have hexts : ∀ ext ∈ list_pending db, ∃ rid,
        ext_id_to_row ext = some rid ∧
        (fetch_request db rid).isSome = true ∧
        (claimed_by_of db rid = none ∨
          ∃ u, claimed_by_of db rid = some u ∧ u ≠ 0 ∧ u ≠ user_id) := by
      intro ext hext
      obtain ⟨t, htm, htn, hteq⟩ := (list_pending_chars db hs).2.1 ext hext
      have hfe : fetch_request db t.id = some t :=
        fetch_request_eq_of_mem db t hnd htm
      refine ⟨t.id, ?_, by simp [hfe], Or.inl (by simp [claimed_by_of, hfe, htn])⟩
      rw [hteq]
      exact ext_id_to_row_roundtrip t.id (hpos t htm)
    have hdist : (list_pending db).Pairwise (· ≠ ·) :=
      hsorted.imp fun hlt => ne_of_lt hlt
    obtain ⟨g1, g2, g3, g4, g5, g6, g7⟩ := claim_bulk_go_spec user_id now itf
      hmid hpre (list_pending db) 1 db hnd hexts hdist
    rw [hbulk]
    refine ⟨hsorted, ?_, ?_, ?_, ?_⟩
    · intro ext hext rid hrow
      exact g3 ext hext rid hrow
    · intro q hq
      exact g7 q hq
    · have hhd : isFailureMsg
        (Msg.claimingMultiple (list_pending db).length) = false := rfl
      rw [List.countP_cons, hhd]
      simpa using g4
    · intro ext hext rid hrow
      have : Msg.claimedOk ext ∈ Msg.claimingMultiple (list_pending db).length ::
          (claim_bulk_go user_id now itf 1 (list_pending db) db).1 ↔
          Msg.claimedOk ext ∈
            (claim_bulk_go user_id now itf 1 (list_pending db) db).1 := by
        simp
      rw [this]
      exact g6 ext hext rid hrow

/-- Concrete state for exercising C7: three unclaimed tickets. -/
def dbC7 : DB :=
  { requests :=
      [{ id := 1, author_id := 41, text := "a", created_at := 0,
         claimed_by := none, claimed_at := none, reminded_at := none,
         message_id := none },
       { id := 2, author_id := 42, text := "b", created_at := 1,
         claimed_by := none, claimed_at := none, reminded_at := none,
         message_id := none },
       { id := 3, author_id := 43, text := "c", created_at := 2,
         claimed_by := none, claimed_at := none, reminded_at := none,
         message_id := none }],
    oversighters := [], ping_subscribers := [] }

/-- Interference for the C7 witness: reviewer 99 claims row 2 just before
the batch's second attempt; no mid-attempt races. -/
def itfC7 : Interference :=
  { pre := fun i => if i == 2 then [Event.rclaim 2 99 50] else [],
    mid := fun _ => none }

theorem claim_bulk_spec_witness :
    (claim_bulk dbC7 7 100 itfC7).1.countP isFailureMsg ≤ 1 ∧
    (Msg.claimedOk 1001 ∈ (claim_bulk dbC7 7 100 itfC7).1 ↔
      claimed_by_of (claim_bulk dbC7 7 100 itfC7).2 1 = some 7) ∧
    (claimed_by_of (claim_bulk dbC7 7 100 itfC7).2 2).isSome = true := by
  have hpre : ∀ i, ∀ e ∈ itfC7.pre i, eventOk 7 e := by
    intro i e he
    simp only [itfC7] at he
    split at he
    · rw [List.mem_singleton] at he
      subst he
      exact ⟨by decide, by decide⟩
    · exact absurd he (by simp)
  have hmain := claim_bulk_spec dbC7 7 100 itfC7
    (by unfold DB.SortedById; decide) (by decide) (fun _ => rfl) hpre
  exact ⟨hmain.2.2.2.1,
    hmain.2.2.2.2 1001 (by decide) 1 (by decide),
    hmain.2.1 1002 (by decide) 2 (by decide)⟩

end OversightBot
